import Mathlib

/-!
# gqlgen `codegen` package: shallow embedding of `codegen.go`

The Go file `codegen/codegen.go` holds the generation pipeline (`Generate`), the
configuration normalisation (`Config.normalize`), the package-name and import-path helpers
(`sanitizePackageName`, `importPath`) and the finalizer (`gofmt`, `write`).

Conventions of the embedding:

* a Go `error` is represented by its message (`err.Error()`); `nil` is `none`;
* a Go `string` is a Lean `String`; where the code measures or cuts a string (`len`,
  `s[lo:hi]` in `importPath`) the string is taken by its UTF-8 bytes, as Go does;
* a Go map is an association list read through first-match lookup; the `nil` map is `none`;
* the file system is a partial function from paths to file contents;
* calls into other packages (schema parser, template engine, `imports.Process`, the
  operating system) and into parts of this package declared in other files are fields of
  an environment record `Env`.
-/

namespace Codegen

/-! ## Errors -/

/-- Message of `errors.Wrap(err, msg)` from `github.com/pkg/errors`: the context, a colon
and a blank, then the message of the cause. -/
def wrap (err msg : String) : String := msg ++ ": " ++ err

/-- How a call ends: normally without error, with a non-nil `error`, or in the
run-time panic `assignment to entry in nil map`. -/
inductive Outcome where
  | ok
  | error (msg : String)
  | panic
deriving DecidableEq, Repr

/-! ## TypeMap -/

/-- Modelled from the spec: the declaration of `TypeMapEntry` is outside `codegen.go`.
A native type identifier together with its defining module (`Model`), and the optional
field-name-to-native-field overrides (`Fields`). -/
structure TypeMapEntry where
  Model : String
  Fields : List (String × String)
deriving DecidableEq, Repr

/-- Go `map[string]TypeMapEntry`: `none` is the nil map, `some l` a map whose entry at
`k` is the first pair of `l` with key `k`. -/
abbrev TypeMap := Option (List (String × TypeMapEntry))

namespace TypeMap

/-- Map read `m[k]` with the comma-ok flag folded into the option. Reading the nil map
finds nothing. -/
def get (m : TypeMap) (k : String) : Option TypeMapEntry :=
  match m with
  | none => none
  | some l => l.lookup k

/-- Modelled from the spec: `TypeMap.Exists` is declared outside `codegen.go`; the spec
describes it as the lookup used to decide shadowing. -/
def Exists (m : TypeMap) (k : String) : Bool := (m.get k).isSome

/-- Map write `m[k] = v`. Writing to the nil map panics (`none`). -/
def set (m : TypeMap) (k : String) (v : TypeMapEntry) : Option TypeMap :=
  match m with
  | none => none
  | some l => some (some ((k, v) :: l.filter (fun p => p.1 != k)))

/-- Keys of the map. -/
def keys (m : TypeMap) : List String :=
  match m with
  | none => []
  | some l => l.map Prod.fst

end TypeMap

/-- The map literal `builtins` of `Config.normalize` (lines 89-103). -/
def builtins : List (String × TypeMapEntry) :=
  [ ("__Directive", ⟨"github.com/vektah/gqlgen/neelance/introspection.Directive", []⟩),
    ("__Type", ⟨"github.com/vektah/gqlgen/neelance/introspection.Type", []⟩),
    ("__Field", ⟨"github.com/vektah/gqlgen/neelance/introspection.Field", []⟩),
    ("__EnumValue", ⟨"github.com/vektah/gqlgen/neelance/introspection.EnumValue", []⟩),
    ("__InputValue", ⟨"github.com/vektah/gqlgen/neelance/introspection.InputValue", []⟩),
    ("__Schema", ⟨"github.com/vektah/gqlgen/neelance/introspection.Schema", []⟩),
    ("Int", ⟨"github.com/vektah/gqlgen/graphql.Int", []⟩),
    ("Float", ⟨"github.com/vektah/gqlgen/graphql.Float", []⟩),
    ("String", ⟨"github.com/vektah/gqlgen/graphql.String", []⟩),
    ("Boolean", ⟨"github.com/vektah/gqlgen/graphql.Boolean", []⟩),
    ("ID", ⟨"github.com/vektah/gqlgen/graphql.ID", []⟩),
    ("Time", ⟨"github.com/vektah/gqlgen/graphql.Time", []⟩),
    ("Map", ⟨"github.com/vektah/gqlgen/graphql.Map", []⟩) ]

/-- The thirteen built-in schema type names: seven scalars and six introspection types. -/
def builtinNames : List String :=
  ["Int", "Float", "String", "Boolean", "ID", "Time", "Map",
   "__Directive", "__Type", "__Field", "__EnumValue", "__InputValue", "__Schema"]

/-- One iteration of the loop at lines 108-112: insert the built-in unless the key exists. -/
def addBuiltin (m : TypeMap) (p : String × TypeMapEntry) : Option TypeMap :=
  if !(m.Exists p.1) then m.set p.1 p.2 else some m

/-- The loop `for typeName, entry := range builtins` (lines 108-112), run in the
iteration order `order`; `none` is a panic. -/
def addBuiltins (order : List (String × TypeMapEntry)) (m : TypeMap) : Option TypeMap :=
  order.foldlM addBuiltin m

/-- Lines 105-112 of `Config.normalize`: replace a nil map by an empty one, then add the
missing built-ins. -/
def completeModels (order : List (String × TypeMapEntry)) (m : TypeMap) : Option TypeMap :=
  addBuiltins order (if m = none then some [] else m)

/-! ## `path/filepath` on a Unix system

The functions of the Go standard library that `codegen.go` calls, for the separator `/`
and no volume names. They work on the characters of a path. -/

namespace filepath

/-- The constant `filepath.Separator` (and `os.PathSeparator`). -/
def Separator : Char := '/'

/-- Cut a character sequence at every occurrence of `d` (`strings.Split` with a
one-character separator). The result is never empty. -/
def splitOn (d : Char) : List Char → List (List Char)
  | [] => [[]]
  | c :: cs =>
    if c = d then [] :: splitOn d cs
    else
      match splitOn d cs with
      | [] => [[c]]
      | x :: xs => (c :: x) :: xs

/-- One path element processed by `Clean`; `kept` holds the elements kept so far, the
last one first. Empty and `.` elements are dropped, `..` removes the preceding real
element, or is kept at the start of a path that is not rooted. -/
def cleanStep (rooted : Bool) (kept : List (List Char)) (elem : List Char) :
    List (List Char) :=
  if elem = [] ∨ elem = ['.'] then kept
  else if elem = ['.', '.'] then
    match kept with
    | top :: rest =>
      if top = ['.', '.'] then (if rooted then kept else elem :: kept) else rest
    | [] => if rooted then [] else [elem]
  else elem :: kept

/-- Characters of `filepath.Clean(path)`: the shortest equivalent path by purely lexical
processing. -/
def cleanChars (path : List Char) : List Char :=
  if path = [] then ['.']
  else
    let rooted := path.head? == some Separator
    let elems := ((splitOn Separator path).foldl (cleanStep rooted) []).reverse
    let body := List.intercalate [Separator] elems
    let out := if rooted then Separator :: body else body
    if out = [] then ['.'] else out

/-- Characters of `filepath.Join(a, b)`: leading empty elements are ignored, the rest is
joined with the separator and cleaned. -/
def joinChars (a b : List Char) : List Char :=
  if a ≠ [] then cleanChars (a ++ Separator :: b)
  else if b ≠ [] then cleanChars b
  else []

/-- Characters of `filepath.Dir(path)`: everything up to the last separator, cleaned. -/
def dirChars (path : List Char) : List Char :=
  cleanChars (path.reverse.dropWhile (fun c => c != Separator)).reverse

/-- Characters of `filepath.Base(path)`: the last element of the path, after removing
trailing separators; `.` for the empty path and the separator for a path of separators. -/
def baseChars (path : List Char) : List Char :=
  if path = [] then ['.']
  else
    let stripped := (path.reverse.dropWhile (fun c => c == Separator)).reverse
    let last := (stripped.reverse.takeWhile (fun c => c != Separator)).reverse
    if last = [] then [Separator] else last

/-- Characters of `filepath.ToSlash(path)`: every separator becomes a forward slash. -/
def toSlashChars (path : List Char) : List Char :=
  path.map (fun c => if c = Separator then '/' else c)

/-- Entries of `filepath.SplitList(path)`: the empty string has no entries, otherwise the
string is cut at every `:`. -/
def splitListChars (path : List Char) : List (List Char) :=
  if path = [] then [] else splitOn ':' path

/-- Go `filepath.Clean`. -/
def Clean (path : String) : String := ⟨cleanChars path.data⟩

/-- Go `filepath.Join` of two elements. -/
def Join (a b : String) : String := ⟨joinChars a.data b.data⟩

/-- Go `filepath.Dir`. -/
def Dir (path : String) : String := ⟨dirChars path.data⟩

/-- Go `filepath.Base`. -/
def Base (path : String) : String := ⟨baseChars path.data⟩

/-- Go `filepath.ToSlash`. -/
def ToSlash (path : String) : String := ⟨toSlashChars path.data⟩

/-- Go `filepath.SplitList`. -/
def SplitList (path : String) : List String := (splitListChars path.data).map String.mk

end filepath

/-- Contents of a file and of a `[]byte`. -/
abbrev Bytes := List UInt8

/-! ## Package names and import paths -/

/-- The character class `\w` of Go regular expressions: ASCII letters, digits and the
underscore. -/
def isWordChar (c : Char) : Bool :=
  decide (('0' ≤ c ∧ c ≤ '9') ∨ ('A' ≤ c ∧ c ≤ 'Z') ∨ ('a' ≤ c ∧ c ≤ 'z') ∨ c = '_')

/-- The regular expression `invalidPackageNameChar` (line 118) with
`ReplaceAllLiteralString(s, "_")`: every match of `[^\w]` is one character, and each is
replaced by one underscore. -/
def replaceInvalidPackageNameChars (s : List Char) : List Char :=
  s.map (fun c => if isWordChar c then c else '_')

/-- Go `sanitizePackageName` (lines 120-122). -/
def sanitizePackageName (pkg : String) : String :=
  ⟨replaceInvalidPackageNameChars (filepath.Base pkg).data⟩

/-- The bytes of a Go string: its UTF-8 encoding. Go's `len(s)` and `s[lo:hi]` count and
cut bytes, not characters, so `importPath` works on these. -/
def goBytes (s : String) : Bytes := s.data.flatMap String.utf8EncodeChar

/-- Go slice expression `s[lo:hi]` on the bytes of a string; `none` is the out-of-range
panic. -/
def slice (s : Bytes) (lo hi : Nat) : Option Bytes :=
  if lo ≤ hi ∧ hi ≤ s.length then some ((s.take hi).drop lo) else none

/-- Go `filepath.ToSlash` on the bytes of a string: every separator byte becomes the byte
of a forward slash. -/
def toSlashBytes (path : Bytes) : Bytes :=
  path.map (fun b => if b = filepath.Separator.toNat.toUInt8 then '/'.toNat.toUInt8 else b)

/-- The loop of `importPath` (lines 135-144) over the remaining GOPATH entries, with the
bytes of the current value of `fullPkgName`; `none` is an out-of-range panic. Lengths are
byte counts, as Go's `len`. `EqualFold` is `strings.EqualFold` on the bytes of its two
arguments; its case-folding tables are part of the Go standard library. `filepath.Join`
looks at the ASCII characters `/` and `.` only, so that it gives the same path whether it
reads UTF-8 text by characters or by bytes. -/
def importPathLoop (EqualFold : Bytes → Bytes → Bool) :
    List String → Bytes → Option Bytes
  | [], fullPkgName => some fullPkgName
  | g :: rest, fullPkgName =>
    let gopath := goBytes (filepath.Join g "src" ++ String.singleton filepath.Separator)
    if gopath.length > fullPkgName.length then importPathLoop EqualFold rest fullPkgName
    else
      match slice fullPkgName 0 gopath.length with
      | none => none
      | some head =>
        if EqualFold gopath head then slice fullPkgName gopath.length fullPkgName.length
        else importPathLoop EqualFold rest fullPkgName

/-- Go `importPath` (lines 132-146): the bytes of the returned string. `GOPATH` is the
value of `build.Default.GOPATH`. -/
def importPath (EqualFold : Bytes → Bytes → Bool) (GOPATH : String)
    (dir pkgName : String) : Option Bytes :=
  (importPathLoop EqualFold (filepath.SplitList GOPATH)
    (goBytes (filepath.Join (filepath.Dir dir) pkgName))).map toSlashBytes

/-- Case folding of the byte of an ASCII letter to lower case; other bytes are unchanged. -/
def asciiFold (b : UInt8) : UInt8 :=
  if 65 ≤ b.toNat ∧ b.toNat ≤ 90 then b + 32 else b

/-- The function `strings.EqualFold` on ASCII text: equal length and equal bytes up to the
case of letters. -/
def asciiEqualFold (s t : Bytes) : Bool :=
  s.map asciiFold == t.map asciiFold

/-! ## Configuration, plans and collaborators -/

/-- Modelled from the spec: the declaration of `PackageConfig` is outside `codegen.go`.
An output target: the path of the output file and a package identifier. -/
structure PackageConfig where
  Filename : String
  Package : String
deriving DecidableEq, Repr

/-- Modelled from the spec: the declaration of `Config` is outside `codegen.go`. Raw schema
text, the two output targets, the user-supplied TypeMap, and the parsed schema, which is
nil until normalisation. The type `σ` is the parser's schema representation. -/
structure Config (σ : Type) where
  SchemaStr : String
  Exec : PackageConfig
  Model : PackageConfig
  Models : TypeMap
  schema : Option σ

/-- Modelled from the spec: a Model descriptor of the model plan, declared outside
`codegen.go`; `Generate` reads `GQLType` and `GoType`. -/
structure Model where
  GQLType : String
  GoType : String
  Fields : List (String × String)
deriving DecidableEq, Repr

/-- Modelled from the spec: an Enum descriptor of the model plan, declared outside
`codegen.go`; `Generate` reads `GQLType` and `GoType`. -/
structure Enum where
  GQLType : String
  GoType : String
  Values : List String
deriving DecidableEq, Repr

/-- Modelled from the spec: the model plan `ModelBuild`, declared outside `codegen.go`. -/
structure ModelBuild where
  PackageName : String
  Models : List Model
  Enums : List Enum
deriving DecidableEq, Repr

/-- Modelled from the spec: the execution plan `Build`, declared outside `codegen.go`:
package name, embedded raw schema text, and the objects with their bound fields. -/
structure Build where
  PackageName : String
  SchemaRaw : String
  Objects : List (String × List (String × String))
deriving DecidableEq, Repr

/-- The second argument of `templates.Run`: one of the two plans. -/
inductive TemplateData where
  | models (b : ModelBuild)
  | exec (b : Build)
deriving DecidableEq, Repr

/-- The collaborators of `codegen.go`.

* `rangeOrder` is the order in which `range builtins` visits the map literal; Go leaves it
  unspecified, so it is any arrangement of the literal's entries.
* `pkgNormalize`, `ImportPath`, `models`, `bind`, `validate` are the methods
  `PackageConfig.normalize`, `PackageConfig.ImportPath`, `Config.models`, `Config.bind`
  and `Config.validate`, declared in other files of the package. A method with a pointer
  receiver that may change it returns the new value.
* `parse` is `schema.New()` followed by `Schema.Parse`, `run` is `templates.Run`,
  `process` is `imports.Process`.
* `mkdirAll`, `writeFile` give the error of `os.MkdirAll` and `ioutil.WriteFile` for a
  path, and `unlinkFails` tells whether `syscall.Unlink` leaves a file in place. -/
structure Env (σ : Type) where
  rangeOrder : List (String × TypeMapEntry)
  rangeOrder_perm : rangeOrder.Perm builtins
  pkgNormalize : PackageConfig → Option String × PackageConfig
  ImportPath : PackageConfig → String
  parse : String → Option String × σ
  models : Config σ → Except String ModelBuild
  bind : Config σ → Except String Build
  validate : Config σ → Option String
  run : String → TemplateData → Except String Bytes
  process : String → Bytes → Except String Bytes
  mkdirAll : String → Option String
  writeFile : String → Option String
  unlinkFails : String → Bool

/-! ## File system and effects -/

/-- The files of the file system: the contents at each path that holds a file. -/
abbrev FS := String → Option Bytes

/-- The file system after a successful `ioutil.WriteFile(p, b, _)`. -/
def FS.write (fs : FS) (p : String) (b : Bytes) : FS :=
  fun q => if q = p then some b else fs q

/-- The file system after a successful `syscall.Unlink(p)`. -/
def FS.remove (fs : FS) (p : String) : FS :=
  fun q => if q = p then none else fs q

/-- A call that `Generate` makes to a collaborator, recorded in the order of the calls. -/
inductive Event where
  | unlink (path : String)
  | models
  | bind
  | run (template : String)
  | mkdirAll (dir : String)
  | process (filename : String)
  | stderr (text : String)
  | writeFile (filename : String) (data : Bytes)
  | validate
deriving DecidableEq, Repr

/-- The state outside the configuration: the files, and the calls made so far. -/
structure World where
  fs : FS
  log : List Event

/-- Record a call. -/
def World.emit (w : World) (e : Event) : World := { w with log := w.log ++ [e] }

/-- Statement `_ = syscall.Unlink(path)`: the error is discarded; the file is gone unless
the call fails for a reason other than a missing file. -/
def unlink {σ : Type} (env : Env σ) (path : String) (w : World) : World :=
  let w := w.emit (.unlink path)
  if env.unlinkFails path then w else { w with fs := w.fs.remove path }

/-! ## Finalizer -/

/-- Go `gofmt` (lines 148-154): the formatted bytes, or the input and a wrapped error. -/
def gofmt {σ : Type} (env : Env σ) (filename : String) (b : Bytes) : Bytes × Option String :=
  match env.process filename b with
  | .error e => (b, some (wrap e "unable to gofmt"))
  | .ok out => (out, none)

/-- Go `write` (lines 156-174). -/
def write {σ : Type} (env : Env σ) (filename : String) (b : Bytes) (w : World) :
    Option String × World :=
  let w := w.emit (.mkdirAll (filepath.Dir filename))
  match env.mkdirAll (filepath.Dir filename) with
  | some e => (some (wrap e "failed to create directory"), w)
  | none =>
    let w := w.emit (.process filename)
    let fw : Bytes × World :=
      match gofmt env filename b with
      | (_, some e) => (b, w.emit (.stderr ("gofmt failed: " ++ e ++ "\n")))
      | (formatted, none) => (formatted, w)
    let w := fw.2.emit (.writeFile filename fw.1)
    match env.writeFile filename with
    | some e => (some (wrap e ("failed to write " ++ filename)), w)
    | none => (none, { w with fs := w.fs.write filename fw.1 })

/-! ## Normalisation -/

/-- Go `Config.normalize` (lines 80-116): the outcome and the configuration as the
method leaves it. -/
def Config.normalize {σ : Type} (env : Env σ) (cfg : Config σ) : Outcome × Config σ :=
  match env.pkgNormalize cfg.Model with
  | (some e, model) => (.error (wrap e "model"), { cfg with Model := model })
  | (none, model) =>
    let cfg := { cfg with Model := model }
    match env.pkgNormalize cfg.Exec with
    | (some e, exec) => (.error (wrap e "exec"), { cfg with Exec := exec })
    | (none, exec) =>
      let cfg := { cfg with Exec := exec }
      match completeModels env.rangeOrder cfg.Models with
      | none => (.panic, cfg)
      | some models =>
        let cfg := { cfg with Models := models }
        match env.parse cfg.SchemaStr with
        | (some e, s) => (.error e, { cfg with schema := some s })
        | (none, s) => (.ok, { cfg with schema := some s })

/-! ## The pipeline -/

/-- The loop at lines 43-47: bind every generated model in the TypeMap. -/
def bindModels (importPath : String) (models : List Model) (m : TypeMap) : Option TypeMap :=
  models.foldlM (fun m model => m.set model.GQLType ⟨importPath ++ "." ++ model.GoType, []⟩) m

/-- The loop at lines 49-53: bind every generated enum in the TypeMap. -/
def bindEnums (importPath : String) (enums : List Enum) (m : TypeMap) : Option TypeMap :=
  enums.foldlM (fun m enum => m.set enum.GQLType ⟨importPath ++ "." ++ enum.GoType, []⟩) m

/-- What a run of `Generate` leaves: the outcome, the configuration as the function holds
it on return, the files, and the calls made. -/
structure Run (σ : Type) where
  out : Outcome
  cfg : Config σ
  fs : FS
  log : List Event

/-- Lines 56-77 of `Generate`: the execution plan, its rendering, and validation. -/
def generateExec {σ : Type} (env : Env σ) (cfg : Config σ) (w : World) : Run σ :=
  let w := w.emit .bind
  match env.bind cfg with
  | .error e => ⟨.error (wrap e "exec plan failed"), cfg, w.fs, w.log⟩
  | .ok build =>
    let build := { build with SchemaRaw := cfg.SchemaStr }
    let build := { build with PackageName := cfg.Exec.Package }
    let w := w.emit (.run "generated.gotpl")
    match env.run "generated.gotpl" (.exec build) with
    | .error e => ⟨.error (wrap e "exec codegen failed"), cfg, w.fs, w.log⟩
    | .ok buf =>
      match write env cfg.Exec.Filename buf w with
      | (some e, w) => ⟨.error e, cfg, w.fs, w.log⟩
      | (none, w) =>
        let w := w.emit .validate
        match env.validate cfg with
        | some e => ⟨.error (wrap e "validation failed"), cfg, w.fs, w.log⟩
        | none => ⟨.ok, cfg, w.fs, w.log⟩

/-- Lines 32-54 of `Generate`, entered with a non-empty model plan: render and write the
model file, then bind the generated types; on success the pipeline goes on with the
execution plan. -/
def generateModels {σ : Type} (env : Env σ) (cfg : Config σ) (modelsBuild : ModelBuild)
    (w : World) : Run σ :=
  let modelsBuild := { modelsBuild with PackageName := cfg.Model.Package }
  let w := w.emit (.run "models.gotpl")
  match env.run "models.gotpl" (.models modelsBuild) with
  | .error e => ⟨.error (wrap e "model generation failed"), cfg, w.fs, w.log⟩
  | .ok buf =>
    match write env cfg.Model.Filename buf w with
    | (some e, w) => ⟨.error e, cfg, w.fs, w.log⟩
    | (none, w) =>
      match bindModels (env.ImportPath cfg.Model) modelsBuild.Models cfg.Models with
      | none => ⟨.panic, cfg, w.fs, w.log⟩
      | some m =>
        match bindEnums (env.ImportPath cfg.Model) modelsBuild.Enums m with
        | none => ⟨.panic, { cfg with Models := m }, w.fs, w.log⟩
        | some m => generateExec env { cfg with Models := m } w

/-- Go `Generate` (lines 20-78), started on the files `fs`. -/
def Generate {σ : Type} (env : Env σ) (cfg : Config σ) (fs : FS) : Run σ :=
  match Config.normalize env cfg with
  | (.error e, cfg) => ⟨.error e, cfg, fs, []⟩
  | (.panic, cfg) => ⟨.panic, cfg, fs, []⟩
  | (.ok, cfg) =>
    let w : World := ⟨fs, []⟩
    let w := unlink env cfg.Exec.Filename w
    let w := unlink env cfg.Model.Filename w
    let w := w.emit .models
    match env.models cfg with
    | .error e => ⟨.error (wrap e "model plan failed"), cfg, w.fs, w.log⟩
    | .ok modelsBuild =>
      if modelsBuild.Models.length > 0 ∨ modelsBuild.Enums.length > 0 then
        generateModels env cfg modelsBuild w
      else
        generateExec env cfg w

/-! ## Sample collaborators

A small concrete environment and configuration on which the definitions can be run. -/

/-- A target normalisation in the spirit of `PackageConfig.normalize`: the file name is
required, and an empty package name is derived from the directory of the file. -/
def samplePkgNormalize (p : PackageConfig) : Option String × PackageConfig :=
  if p.Filename = "" then (some "Filename is required", p)
  else
    (none, { p with Package :=
      sanitizePackageName (if p.Package = "" then filepath.Dir p.Filename else p.Package) })

/-- A sample environment: the schema text `type Todo` parses, everything else is a syntax
error; the model plan holds the single model `Todo` unless the TypeMap already binds it;
rendering, formatting and the file system never fail. -/
def sampleEnv : Env Unit where
  rangeOrder := builtins
  rangeOrder_perm := List.Perm.refl _
  pkgNormalize := samplePkgNormalize
  ImportPath := fun p => "example.com/app/" ++ p.Package
  parse := fun s => (if s = "type Todo" then none else some "syntax error", ())
  models := fun cfg =>
    .ok ⟨"", if cfg.Models.Exists "Todo" then [] else [⟨"Todo", "Todo", []⟩], []⟩
  bind := fun _ => .ok ⟨"", "", [("Query", [("todos", "[]Todo")])]⟩
  validate := fun _ => none
  run := fun t _ => .ok (if t = "models.gotpl" then [1, 2] else [3, 4, 5])
  process := fun _ b => .ok (0 :: b)
  mkdirAll := fun _ => none
  writeFile := fun _ => none
  unlinkFails := fun _ => false

/-- A sample configuration: schema `type Todo`, two targets, and a user TypeMap that
rebinds the built-in `ID`. -/
def sampleConfig : Config Unit where
  SchemaStr := "type Todo"
  Exec := ⟨"graph/generated.go", ""⟩
  Model := ⟨"graph/model/models.go", ""⟩
  Models := some [("ID", ⟨"example.com/app.MyID", [("value", "V")]⟩)]
  schema := none

/-- The state in which `Generate` calls `Config.models` (line 28): both destination paths
have been unlinked, starting from the files `fs`. -/
def afterUnlink {σ : Type} (env : Env σ) (cfg : Config σ) (fs : FS) : World :=
  (unlink env cfg.Model.Filename (unlink env cfg.Exec.Filename ⟨fs, []⟩)).emit .models

/-- A configuration whose schema text does not parse. -/
def brokenConfig : Config Unit := { sampleConfig with SchemaStr := "type" }

/-- Files left by an earlier run at the two destinations of the sample configuration. -/
def staleFS : FS := fun q =>
  if q = "graph/generated.go" then some [9]
  else if q = "graph/model/models.go" then some [8]
  else none

/-- The sample environment with a template engine that fails on the models template. -/
def failingRenderEnv : Env Unit :=
  { sampleEnv with
    run := fun t _ => if t = "models.gotpl" then .error "template: bad" else .ok [3, 4, 5] }

/-- The sample environment with a formatter that always fails. -/
def failingFormatEnv : Env Unit :=
  { sampleEnv with process := fun _ _ => .error "expected declaration" }

/-- A change of the files that treats every path on its own: each path either keeps its
contents or receives contents that do not depend on the files before. Unlinking and
writing a file are of this kind, and so is any sequence of them. -/
def Pointwise (G : FS → FS) : Prop :=
  ∀ q, (∀ fs, G fs q = fs q) ∨ (∃ c, ∀ fs, G fs q = c)

/-! ## Vocabulary of the specification -/

/-- The path `p` holds nothing from before the run: it holds no file, or it holds bytes
that `ioutil.WriteFile` was called with for `p` during the run. -/
def Fresh (p : String) (fs : FS) (log : List Event) : Prop :=
  fs p = none ∨ ∃ b, Event.writeFile p b ∈ log ∧ fs p = some b


/-- Whether a string begins with an ASCII digit. -/
def beginsWithDigit (s : String) : Bool :=
  match s.data with
  | [] => false
  | c :: _ => decide ('0' ≤ c ∧ c ≤ '9')

/-- A legal identifier in the specification's words: non-empty, made only of ASCII
letters, digits and underscores, and not beginning with a digit. -/
def isLegalIdentifier (s : String) : Bool :=
  !s.data.isEmpty && s.data.all isWordChar && !beginsWithDigit s

/-- Whether `pre` is a case-insensitive beginning of `full`, both given by their bytes:
`full` has at least as many bytes, and its first bytes, as many as `pre` has, equal `pre`
under `EqualFold`. -/
def foldBeginsWith (EqualFold : Bytes → Bytes → Bool) (full pre : Bytes) : Bool :=
  decide (pre.length ≤ full.length) && EqualFold pre (full.take pre.length)

/-- The result of `importPath` in the specification's words, for the path beginning that
each GOPATH entry stands for (`beginning g`): the full package path
`join(dirname(dir), pkgName)` without the beginning of the first entry whose beginning is a
case-insensitive beginning of it, or the full path if there is no such entry; separators
converted to forward slashes. The result is given by its bytes. -/
def importPathBy (beginning : String → String) (EqualFold : Bytes → Bytes → Bool)
    (GOPATH dir pkgName : String) : Bytes :=
  let full := goBytes (filepath.Join (filepath.Dir dir) pkgName)
  toSlashBytes
    (match (filepath.SplitList GOPATH).find?
        (fun g => foldBeginsWith EqualFold full (goBytes (beginning g))) with
     | some g => full.drop (goBytes (beginning g)).length
     | none => full)

/-- The specification's reading of `importPath`: the beginning of an entry `g` is the
concatenation `g + "/src/"`. -/
def importPathClaimed (EqualFold : Bytes → Bytes → Bool) (GOPATH dir pkgName : String) :
    Bytes :=
  importPathBy (fun g => g ++ "/src/") EqualFold GOPATH dir pkgName

/-- The reading of `importPath` that the code implements: the beginning of an entry `g` is
`filepath.Join(g, "src")` followed by the separator. -/
def importPathJoined (EqualFold : Bytes → Bytes → Bool) (GOPATH dir pkgName : String) :
    Bytes :=
  importPathBy (fun g => filepath.Join g "src" ++ String.singleton filepath.Separator)
    EqualFold GOPATH dir pkgName

/-- The configuration that the caller of `Generate(cfg)` holds when the call has returned
with the run `r`. `Config` is passed by value, so the caller's fields are as before; but a
map is a reference, so a `Models` map that is not nil is the very map `Generate` has written
into (lines 44, 50 and 110) and the caller reads the callee's entries. A nil `Models` stays
nil: line 106 gives the fresh map to the callee's copy only. -/
def configAfter {σ : Type} (cfg : Config σ) (r : Run σ) : Config σ :=
  { cfg with Models := if cfg.Models = none then none else r.cfg.Models }

/-- The sample configuration with a nil TypeMap. -/
def nilMapConfig : Config Unit := { sampleConfig with Models := none }

/-! # Theorems -/

/-! ## TypeMap lemmas -/

theorem lookup_filter_ne (l : List (String × TypeMapEntry)) (k k' : String) (h : k' ≠ k) :
    (l.filter (fun p => p.1 != k)).lookup k' = l.lookup k' := by
  induction l with
  | nil => rfl
  | cons p t ih =>
    obtain ⟨a, b⟩ := p
    by_cases ha : a = k
    · subst ha
      have hb : (k' == a) = false := by simpa using h
      simp [List.filter_cons, List.lookup, ih, hb]
    · have hne : (a != k) = true := by simpa using ha
      by_cases hk : k' = a
      · subst hk
        simp [List.filter_cons, hne, List.lookup]
      · have hb : (k' == a) = false := by simpa using hk
        simp [List.filter_cons, hne, List.lookup, ih, hb]

theorem TypeMap.get_set (l : List (String × TypeMapEntry)) (k : String) (v : TypeMapEntry) :
    ∃ l', TypeMap.set (some l) k v = some (some l') ∧
      ∀ k', TypeMap.get (some l') k' = if k' = k then some v else TypeMap.get (some l) k' := by
  refine ⟨(k, v) :: l.filter (fun p => p.1 != k), rfl, ?_⟩
  intro k'
  by_cases h : k' = k
  · subst h
    simp [TypeMap.get, List.lookup]
  · have hb : (k' == k) = false := by simpa using h
    simp [TypeMap.get, List.lookup, hb, h, lookup_filter_ne l k k' h]

theorem addBuiltin_get (l : List (String × TypeMapEntry)) (p : String × TypeMapEntry) :
    ∃ l', addBuiltin (some l) p = some (some l') ∧
      ∀ k, TypeMap.get (some l') k =
        (TypeMap.get (some l) k).orElse (fun _ => if k = p.1 then some p.2 else none) := by
  unfold addBuiltin
  by_cases hex : TypeMap.Exists (some l) p.1 = true
  · refine ⟨l, by simp [hex], ?_⟩
    intro k
    by_cases hk : k = p.1
    · unfold TypeMap.Exists at hex
      obtain ⟨e, he⟩ := Option.isSome_iff_exists.mp hex
      rw [hk]
      simp [he]
    · cases hg : TypeMap.get (some l) k <;> simp [hk]
  · obtain ⟨l', hset, hget⟩ := TypeMap.get_set l p.1 p.2
    refine ⟨l', by simp [hex, hset], ?_⟩
    intro k
    rw [hget k]
    by_cases hk : k = p.1
    · have hnone : TypeMap.get (some l) p.1 = none := by
        unfold TypeMap.Exists at hex
        simpa using hex
      rw [hk]
      simp [hnone]
    · cases hg : TypeMap.get (some l) k <;> simp [hk]

theorem addBuiltins_get (order : List (String × TypeMapEntry)) :
    ∀ l : List (String × TypeMapEntry), ∃ l', addBuiltins order (some l) = some (some l') ∧
      ∀ k, TypeMap.get (some l') k = (TypeMap.get (some l) k).orElse (fun _ => order.lookup k) := by
  induction order with
  | nil =>
    intro l
    refine ⟨l, rfl, ?_⟩
    intro k
    cases hg : TypeMap.get (some l) k <;> simp [List.lookup]
  | cons p rest ih =>
    intro l
    obtain ⟨l1, h1, g1⟩ := addBuiltin_get l p
    obtain ⟨l2, h2, g2⟩ := ih l1
    refine ⟨l2, ?_, ?_⟩
    · unfold addBuiltins at h2 ⊢
      rw [List.foldlM_cons, h1]
      exact h2
    · intro k
      rw [g2 k, g1 k]
      obtain ⟨a, b⟩ := p
      by_cases hk : k = a
      · subst hk
        cases hg : TypeMap.get (some l) k <;> simp [List.lookup]
      · have hb : (k == a) = false := by simpa using hk
        cases hg : TypeMap.get (some l) k <;> simp [List.lookup, hk, hb]

theorem lookup_eq_some_iff_mem (l : List (String × TypeMapEntry))
    (hnd : (l.map Prod.fst).Nodup) (k : String) (v : TypeMapEntry) :
    l.lookup k = some v ↔ (k, v) ∈ l := by
  induction l with
  | nil => simp [List.lookup]
  | cons p t ih =>
    obtain ⟨a, b⟩ := p
    simp only [List.map_cons, List.nodup_cons] at hnd
    obtain ⟨hnot, hnd⟩ := hnd
    by_cases hk : k = a
    · subst hk
      have hmem : ∀ v, (k, v) ∉ t := fun v hv => hnot (List.mem_map_of_mem Prod.fst hv)
      simp only [List.lookup, beq_self_eq_true, Option.some.injEq, List.mem_cons, Prod.mk.injEq,
        true_and, hmem, or_false]
      exact eq_comm
    · have hb : (k == a) = false := by simpa using hk
      simp [List.lookup, hb, ih hnd, hk]

theorem lookup_perm (l₁ l₂ : List (String × TypeMapEntry)) (hp : l₁.Perm l₂)
    (hnd : (l₂.map Prod.fst).Nodup) (k : String) : l₁.lookup k = l₂.lookup k := by
  have hnd1 : (l₁.map Prod.fst).Nodup := (hp.map Prod.fst).nodup_iff.mpr hnd
  apply Option.ext
  intro v
  simp only [Option.mem_def]
  rw [lookup_eq_some_iff_mem l₁ hnd1, lookup_eq_some_iff_mem l₂ hnd]
  exact hp.mem_iff

theorem builtins_keys_nodup : (builtins.map Prod.fst).Nodup := by decide

theorem builtins_lookup_isSome_iff (k : String) :
    (builtins.lookup k).isSome = true ↔ k ∈ builtinNames := by
  constructor
  · intro h
    obtain ⟨v, hv⟩ := Option.isSome_iff_exists.mp h
    have hmem := (lookup_eq_some_iff_mem builtins builtins_keys_nodup k v).mp hv
    simp only [builtins, List.mem_cons, Prod.mk.injEq, List.mem_singleton] at hmem
    simp only [builtinNames, List.mem_cons, List.mem_singleton]
    tauto
  · intro h
    simp only [builtinNames, List.mem_cons, List.mem_singleton, List.mem_nil_iff] at h
    rcases h with h | h | h | h | h | h | h | h | h | h | h | h | h | h
    all_goals first | (subst h; decide) | exact absurd h id

theorem TypeMap.mem_keys_iff (m : TypeMap) (k : String) : k ∈ m.keys ↔ m.Exists k = true := by
  cases m with
  | none => simp [TypeMap.keys, TypeMap.Exists, TypeMap.get]
  | some l =>
    simp only [TypeMap.keys, TypeMap.Exists, TypeMap.get]
    induction l with
    | nil => simp [List.lookup]
    | cons p t ih =>
      obtain ⟨a, b⟩ := p
      by_cases hk : k = a
      · subst hk
        simp [List.lookup]
      · have hb : (k == a) = false := by simpa using hk
        simp only [List.map_cons, List.mem_cons, hk, false_or, List.lookup, hb]
        exact ih

theorem completeModels_get (order : List (String × TypeMapEntry)) (m : TypeMap) :
    ∃ l', completeModels order m = some (some l') ∧
      ∀ k, TypeMap.get (some l') k = (m.get k).orElse (fun _ => order.lookup k) := by
  unfold completeModels
  cases m with
  | none =>
    obtain ⟨l', h1, h2⟩ := addBuiltins_get order []
    refine ⟨l', by simpa using h1, ?_⟩
    intro k
    rw [h2 k]
    simp [TypeMap.get, List.lookup]
  | some l =>
    obtain ⟨l', h1, h2⟩ := addBuiltins_get order l
    exact ⟨l', by simpa using h1, h2⟩

/-- What a successful `Config.normalize` has done: both targets were normalised without
error, the TypeMap was completed, and the schema text parsed. -/
theorem normalize_ok {σ : Type} (env : Env σ) (cfg r : Config σ)
    (h : Config.normalize env cfg = (.ok, r)) :
    env.pkgNormalize cfg.Model = (none, r.Model) ∧
    env.pkgNormalize cfg.Exec = (none, r.Exec) ∧
    completeModels env.rangeOrder cfg.Models = some r.Models ∧
    r.SchemaStr = cfg.SchemaStr ∧
    (env.parse cfg.SchemaStr).1 = none ∧
    r.schema = some (env.parse cfg.SchemaStr).2 := by
  unfold Config.normalize at h
  rcases hm : env.pkgNormalize cfg.Model with ⟨em, model⟩
  rcases he : env.pkgNormalize cfg.Exec with ⟨ee, exec⟩
  rcases hs : env.parse cfg.SchemaStr with ⟨es, s⟩
  rcases hc : completeModels env.rangeOrder cfg.Models with _ | models <;>
    cases em <;> cases ee <;> cases es <;> simp [hm, he, hc, hs] at h ⊢
  subst h
  simp

/-- The TypeMap after a successful `Config.normalize`: a non-nil map that reads as the
user's map first and the built-in literal second. -/
theorem normalize_ok_models {σ : Type} (env : Env σ) (cfg : Config σ)
    (hok : (Config.normalize env cfg).1 = Outcome.ok) :
    ∃ l', (Config.normalize env cfg).2.Models = some l' ∧
      ∀ k, TypeMap.get (some l') k = (cfg.Models.get k).orElse (fun _ => builtins.lookup k) := by
  rcases hn : Config.normalize env cfg with ⟨o, r⟩
  rw [hn] at hok
  simp only at hok
  subst hok
  obtain ⟨-, -, hc, -⟩ := normalize_ok env cfg r hn
  obtain ⟨l', h1, h2⟩ := completeModels_get env.rangeOrder cfg.Models
  rw [hc] at h1
  refine ⟨l', by simpa using h1, ?_⟩
  intro k
  rw [h2 k, lookup_perm env.rangeOrder builtins env.rangeOrder_perm builtins_keys_nodup k]

/-! ## C1: override precedence -/

/-- C1. Override precedence in `Config.normalize`: for every user-supplied TypeMap and every
key `k` with entry `e` in it, after a successful `normalize` the entry at `k` is exactly
`e` (same `Model`, same field overrides); in particular, when `k` is a built-in name whose
built-in entry differs from `e`, the entry at `k` is not the built-in one. -/
theorem normalize_user_entry_wins {σ : Type} (env : Env σ) (cfg : Config σ) (k : String)
    (e : TypeMapEntry) (hok : (Config.normalize env cfg).1 = Outcome.ok)
    (hk : cfg.Models.get k = some e) :
    (Config.normalize env cfg).2.Models.get k = some e ∧
    (builtins.lookup k ≠ some e →
      (Config.normalize env cfg).2.Models.get k ≠ builtins.lookup k) := by
  obtain ⟨l', hm, hget⟩ := normalize_ok_models env cfg hok
  have h : (Config.normalize env cfg).2.Models.get k = some e := by
    rw [hm, hget k, hk]
    rfl
  refine ⟨h, ?_⟩
  intro hne
  rw [h]
  exact fun hc => hne hc.symm

/-- C1 at the sample configuration: the user's entry for the built-in name `ID` survives. -/
theorem normalize_user_entry_wins_witness :
    (Config.normalize sampleEnv sampleConfig).1 = Outcome.ok ∧
    sampleConfig.Models.get "ID" = some ⟨"example.com/app.MyID", [("value", "V")]⟩ ∧
    (Config.normalize sampleEnv sampleConfig).2.Models.get "ID"
      = some ⟨"example.com/app.MyID", [("value", "V")]⟩ ∧
    (builtins.lookup "ID" ≠ some ⟨"example.com/app.MyID", [("value", "V")]⟩ →
      (Config.normalize sampleEnv sampleConfig).2.Models.get "ID" ≠ builtins.lookup "ID") :=
  ⟨by decide, by decide,
    normalize_user_entry_wins sampleEnv sampleConfig "ID"
      ⟨"example.com/app.MyID", [("value", "V")]⟩ (by decide) (by decide)⟩

/-! ## C2: built-in completion -/

/-- C2. Built-in completion in `Config.normalize`: for every user-supplied TypeMap, nil and
empty included, after a successful `normalize` the TypeMap is a non-nil map whose keys are
exactly the user's keys together with the thirteen built-in names; every built-in name that
the user did not supply maps to its fixed built-in entry; and no key of the user's map is
removed. -/
theorem normalize_completes_builtins {σ : Type} (env : Env σ) (cfg : Config σ)
    (hok : (Config.normalize env cfg).1 = Outcome.ok) :
    (Config.normalize env cfg).2.Models ≠ none ∧
    (∀ k, k ∈ (Config.normalize env cfg).2.Models.keys ↔
      (k ∈ cfg.Models.keys ∨ k ∈ builtinNames)) ∧
    (∀ k, k ∈ builtinNames → k ∉ cfg.Models.keys →
      ∃ b, (k, b) ∈ builtins ∧ (Config.normalize env cfg).2.Models.get k = some b) ∧
    (∀ k, k ∈ cfg.Models.keys → k ∈ (Config.normalize env cfg).2.Models.keys) := by
  obtain ⟨l', hm, hget⟩ := normalize_ok_models env cfg hok
  have hkeys : ∀ k, k ∈ (Config.normalize env cfg).2.Models.keys ↔
      (k ∈ cfg.Models.keys ∨ k ∈ builtinNames) := by
    intro k
    rw [TypeMap.mem_keys_iff, TypeMap.mem_keys_iff, ← builtins_lookup_isSome_iff, hm]
    unfold TypeMap.Exists
    rw [hget k]
    cases hg : cfg.Models.get k <;> simp
  refine ⟨by rw [hm]; simp, hkeys, ?_, fun k hk => (hkeys k).mpr (Or.inl hk)⟩
  intro k hb hnot
  have hnone : cfg.Models.get k = none := by
    rw [TypeMap.mem_keys_iff] at hnot
    unfold TypeMap.Exists at hnot
    simpa using hnot
  obtain ⟨b, hb⟩ := Option.isSome_iff_exists.mp ((builtins_lookup_isSome_iff k).mpr hb)
  refine ⟨b, (lookup_eq_some_iff_mem builtins builtins_keys_nodup k b).mp hb, ?_⟩
  rw [hm, hget k, hnone, ← hb]
  rfl

/-- C2 at the nil TypeMap: normalisation succeeds and yields the thirteen built-ins. -/
theorem normalize_completes_builtins_witness :
    (Config.normalize sampleEnv { sampleConfig with Models := none }).1 = Outcome.ok ∧
    ((Config.normalize sampleEnv { sampleConfig with Models := none }).2.Models ≠ none ∧
    (∀ k, k ∈ (Config.normalize sampleEnv { sampleConfig with Models := none }).2.Models.keys ↔
      (k ∈ TypeMap.keys none ∨ k ∈ builtinNames)) ∧
    (∀ k, k ∈ builtinNames → k ∉ TypeMap.keys none →
      ∃ b, (k, b) ∈ builtins ∧
        (Config.normalize sampleEnv { sampleConfig with Models := none }).2.Models.get k = some b) ∧
    (∀ k, k ∈ TypeMap.keys none →
      k ∈ (Config.normalize sampleEnv { sampleConfig with Models := none }).2.Models.keys)) :=
  ⟨by decide, normalize_completes_builtins sampleEnv { sampleConfig with Models := none } (by decide)⟩

/-! ## C7: package identifiers -/

theorem baseChars_ne_nil (path : List Char) : filepath.baseChars path ≠ [] := by
  unfold filepath.baseChars
  by_cases hp : path = []
  · simp [hp]
  · simp only [hp, if_false]
    split
    · simp
    · assumption

theorem isWordChar_repl (c : Char) : isWordChar (if isWordChar c then c else '_') = true := by
  by_cases h : isWordChar c = true
  · simp [h]
  · rw [if_neg h]
    decide

theorem digit_repl (c : Char) :
    decide ('0' ≤ (if isWordChar c = true then c else '_') ∧
      (if isWordChar c = true then c else '_') ≤ '9') = decide ('0' ≤ c ∧ c ≤ '9') := by
  by_cases h : isWordChar c = true
  · simp [h]
  · have hnd : ¬ ('0' ≤ c ∧ c ≤ '9') := by
      intro hd
      apply h
      unfold isWordChar
      exact decide_eq_true (Or.inl hd)
    rw [if_neg h, decide_eq_false hnd]
    decide

/-- C7, the claim as stated, fails: the output path `gen/2fa` has the final segment `2fa`,
which `sanitizePackageName` returns unchanged, and `2fa` begins with a digit. -/
theorem sanitizePackageName_leading_digit :
    sanitizePackageName "gen/2fa" = "2fa" ∧
    isLegalIdentifier (sanitizePackageName "gen/2fa") = false := by
  decide

/-- C7, amended. For every output path `p`, `sanitizePackageName p` is the final path
segment of `p` (`filepath.Base`) with every character outside `[A-Za-z0-9_]` replaced by one
underscore and every other character unchanged; the result is non-empty and made only of
ASCII letters, digits and underscores; it begins with a digit exactly when the final path
segment does, so it is a legal identifier exactly when that segment does not begin with a
digit. -/
theorem sanitizePackageName_spec (p : String) :
    (sanitizePackageName p).data
      = (filepath.Base p).data.map (fun c => if isWordChar c then c else '_') ∧
    sanitizePackageName p ≠ "" ∧
    (∀ c ∈ (sanitizePackageName p).data, isWordChar c = true) ∧
    beginsWithDigit (sanitizePackageName p) = beginsWithDigit (filepath.Base p) ∧
    isLegalIdentifier (sanitizePackageName p) = !beginsWithDigit (filepath.Base p) := by
  have hne : (sanitizePackageName p).data ≠ [] := by
    simp only [sanitizePackageName, replaceInvalidPackageNameChars, filepath.Base, ne_eq,
      List.map_eq_nil_iff]
    exact baseChars_ne_nil p.data
  have hall : ∀ c ∈ (sanitizePackageName p).data, isWordChar c = true := by
    intro c hc
    simp only [sanitizePackageName, replaceInvalidPackageNameChars, List.mem_map] at hc
    obtain ⟨d, -, rfl⟩ := hc
    exact isWordChar_repl d
  have hdig : beginsWithDigit (sanitizePackageName p) = beginsWithDigit (filepath.Base p) := by
    simp only [beginsWithDigit, sanitizePackageName, replaceInvalidPackageNameChars]
    cases (filepath.Base p).data with
    | nil => rfl
    | cons c cs => exact digit_repl c
  refine ⟨rfl, ?_, hall, hdig, ?_⟩
  · intro h
    apply hne
    rw [h]
  · unfold isLegalIdentifier
    rw [hdig]
    have h1 : (sanitizePackageName p).data.isEmpty = false := by
      cases hd : (sanitizePackageName p).data with
      | nil => exact absurd hd hne
      | cons c cs => rfl
    have h2 : (sanitizePackageName p).data.all isWordChar = true := by
      rw [List.all_eq_true]
      exact hall
    simp [h1, h2]

/-! ## The finalizer -/

@[simp] theorem World.emit_fs (w : World) (e : Event) : (w.emit e).fs = w.fs := rfl

@[simp] theorem World.emit_log (w : World) (e : Event) : (w.emit e).log = w.log ++ [e] := rfl

/-- The bytes that `write` hands to `ioutil.WriteFile` are the first component of `gofmt`:
the formatted bytes, or the raw bytes when formatting fails. -/
theorem write_eq {σ : Type} (env : Env σ) (f : String) (b : Bytes) (w : World) :
    write env f b w =
      match env.mkdirAll (filepath.Dir f) with
      | some e => (some (wrap e "failed to create directory"), w.emit (.mkdirAll (filepath.Dir f)))
      | none =>
        let w1 := (w.emit (.mkdirAll (filepath.Dir f))).emit (.process f)
        let w2 : World :=
          match (gofmt env f b).2 with
          | some e => w1.emit (.stderr ("gofmt failed: " ++ e ++ "\n"))
          | none => w1
        let w3 := w2.emit (.writeFile f (gofmt env f b).1)
        match env.writeFile f with
        | some e => (some (wrap e ("failed to write " ++ f)), w3)
        | none => (none, { w3 with fs := w3.fs.write f (gofmt env f b).1 }) := by
  unfold write gofmt
  cases env.mkdirAll (filepath.Dir f) <;> cases env.process f b <;> cases env.writeFile f <;> rfl

/-- The error of `write` depends on the two file-system calls only. -/
theorem write_err {σ : Type} (env : Env σ) (f : String) (b : Bytes) (w : World) :
    (write env f b w).1 =
      match env.mkdirAll (filepath.Dir f) with
      | some e => some (wrap e "failed to create directory")
      | none =>
        match env.writeFile f with
        | some e => some (wrap e ("failed to write " ++ f))
        | none => none := by
  rw [write_eq]
  cases env.mkdirAll (filepath.Dir f) <;> cases env.writeFile f <;> rfl

/-- The files after `write`: the destination holds the bytes of `gofmt` when `write`
succeeds, and nothing changes when it fails. -/
theorem write_fs {σ : Type} (env : Env σ) (f : String) (b : Bytes) (w : World) :
    (write env f b w).2.fs =
      if (write env f b w).1 = none then w.fs.write f (gofmt env f b).1 else w.fs := by
  rw [write_eq]
  cases env.mkdirAll (filepath.Dir f) <;> cases env.writeFile f <;>
    cases (gofmt env f b).2 <;> simp

/-- The calls made by `write` are appended to the log; a successful `write` has called
`ioutil.WriteFile` on the destination, and `ioutil.WriteFile` is called on no other path. -/
theorem write_log {σ : Type} (env : Env σ) (f : String) (b : Bytes) (w : World) :
    ∃ rest, (write env f b w).2.log = w.log ++ rest ∧
      ((write env f b w).1 = none → Event.writeFile f (gofmt env f b).1 ∈ rest) ∧
      (∀ g c, Event.writeFile g c ∈ rest → g = f ∧ c = (gofmt env f b).1) ∧
      (∀ t, Event.run t ∉ rest) ∧ Event.bind ∉ rest := by
  rw [write_eq]
  cases env.mkdirAll (filepath.Dir f) <;> cases env.writeFile f <;>
    cases (gofmt env f b).2 <;> simp [List.append_assoc]

/-! ## The execution stage -/

/-- Every way in which lines 56-77 can end, with the files and the calls they leave. The
configuration is not changed, the first call is `Config.bind`, the models template is not
rendered, and `ioutil.WriteFile` is called on the Exec destination only. -/
theorem generateExec_cases {σ : Type} (env : Env σ) (cfg : Config σ) (w : World) :
    (generateExec env cfg w).cfg = cfg ∧
    ∃ rest, (generateExec env cfg w).log = w.log ++ Event.bind :: rest ∧
      (∀ g c, Event.writeFile g c ∈ rest → g = cfg.Exec.Filename) ∧
      Event.run "models.gotpl" ∉ rest ∧
      ((∃ e, (generateExec env cfg w).out = .error (wrap e "exec plan failed") ∧
          (generateExec env cfg w).fs = w.fs) ∨
       (∃ e, (generateExec env cfg w).out = .error (wrap e "exec codegen failed") ∧
          (generateExec env cfg w).fs = w.fs) ∨
       (∃ e, (generateExec env cfg w).out = .error (wrap e "failed to create directory") ∧
          (generateExec env cfg w).fs = w.fs) ∨
       (∃ e, (generateExec env cfg w).out
            = .error (wrap e ("failed to write " ++ cfg.Exec.Filename)) ∧
          (generateExec env cfg w).fs = w.fs) ∨
       (∃ e c, (generateExec env cfg w).out = .error (wrap e "validation failed") ∧
          (generateExec env cfg w).fs = w.fs.write cfg.Exec.Filename c ∧
          Event.writeFile cfg.Exec.Filename c ∈ rest) ∨
       (∃ c, (generateExec env cfg w).out = .ok ∧
          (generateExec env cfg w).fs = w.fs.write cfg.Exec.Filename c ∧
          Event.writeFile cfg.Exec.Filename c ∈ rest)) := by
  unfold generateExec
  simp only []
  split
  · exact ⟨rfl, [], by simp, by simp, by simp, Or.inl ⟨_, rfl, rfl⟩⟩
  · rename_i build hb
    split
    · exact ⟨rfl, [Event.run "generated.gotpl"], by simp, by simp, by decide,
        Or.inr (Or.inl ⟨_, rfl, rfl⟩)⟩
    · rename_i buf hr
      obtain ⟨mid, hlog, hok, hwf, hnr, -⟩ := write_log env cfg.Exec.Filename buf
        ((w.emit Event.bind).emit (Event.run "generated.gotpl"))
      have herr := write_err env cfg.Exec.Filename buf
        ((w.emit Event.bind).emit (Event.run "generated.gotpl"))
      have hfs := write_fs env cfg.Exec.Filename buf
        ((w.emit Event.bind).emit (Event.run "generated.gotpl"))
      have hwf' : ∀ g c, Event.writeFile g c ∈ Event.run "generated.gotpl" :: mid →
          g = cfg.Exec.Filename := by
        intro g c hgc
        simp only [List.mem_cons, reduceCtorEq, false_or] at hgc
        exact (hwf g c hgc).1
      have hnr' : Event.run "models.gotpl" ∉ Event.run "generated.gotpl" :: mid := by
        simp only [List.mem_cons, Event.run.injEq, not_or]
        exact ⟨by decide, hnr _⟩
      split
      · rename_i e w1 hw
        rw [hw] at hlog herr hfs
        simp only [reduceCtorEq, if_false, World.emit_fs] at hfs
        simp only [World.emit_log, List.append_assoc, List.singleton_append] at hlog
        refine ⟨rfl, Event.run "generated.gotpl" :: mid, hlog, hwf', hnr', ?_⟩
        cases hm : env.mkdirAll (filepath.Dir cfg.Exec.Filename) with
        | some e1 =>
          rw [hm] at herr
          simp only [Option.some.injEq] at herr
          subst herr
          exact Or.inr (Or.inr (Or.inl ⟨e1, rfl, hfs⟩))
        | none =>
          rw [hm] at herr
          cases hwr : env.writeFile cfg.Exec.Filename with
          | some e2 =>
            rw [hwr] at herr
            simp only [Option.some.injEq] at herr
            subst herr
            exact Or.inr (Or.inr (Or.inr (Or.inl ⟨e2, rfl, hfs⟩)))
          | none =>
            rw [hwr] at herr
            simp at herr
      · rename_i w1 hw
        rw [hw] at hlog hfs hok
        simp only [if_true, World.emit_fs] at hfs
        simp only [World.emit_log, List.append_assoc, List.singleton_append] at hlog
        have hev := hok rfl
        split
        · refine ⟨rfl, Event.run "generated.gotpl" :: (mid ++ [Event.validate]), ?_, ?_, ?_, ?_⟩
          · simp [hlog]
          · intro g c hgc
            rcases List.mem_cons.mp hgc with h | h
            · cases h
            · rcases List.mem_append.mp h with h | h
              · exact (hwf g c h).1
              · simp at h
          · intro h
            rcases List.mem_cons.mp h with h | h
            · exact absurd h (by decide)
            · rcases List.mem_append.mp h with h | h
              · exact hnr _ h
              · simp at h
          · exact Or.inr (Or.inr (Or.inr (Or.inr (Or.inl
              ⟨_, _, rfl, hfs, by simp [hev]⟩))))
        · refine ⟨rfl, Event.run "generated.gotpl" :: (mid ++ [Event.validate]), ?_, ?_, ?_, ?_⟩
          · simp [hlog]
          · intro g c hgc
            rcases List.mem_cons.mp hgc with h | h
            · cases h
            · rcases List.mem_append.mp h with h | h
              · exact (hwf g c h).1
              · simp at h
          · intro h
            rcases List.mem_cons.mp h with h | h
            · exact absurd h (by decide)
            · rcases List.mem_append.mp h with h | h
              · exact hnr _ h
              · simp at h
          · exact Or.inr (Or.inr (Or.inr (Or.inr (Or.inr
              ⟨_, rfl, hfs, by simp [hev]⟩))))

/-! ## The model stage -/

theorem bindModels_some (imp : String) (models : List Model) :
    ∀ l : List (String × TypeMapEntry), ∃ l', bindModels imp models (some l) = some (some l') := by
  induction models with
  | nil => exact fun l => ⟨l, rfl⟩
  | cons m ms ih =>
    intro l
    obtain ⟨l1, h1, -⟩ := TypeMap.get_set l m.GQLType ⟨imp ++ "." ++ m.GoType, []⟩
    obtain ⟨l2, h2⟩ := ih l1
    refine ⟨l2, ?_⟩
    unfold bindModels at h2 ⊢
    rw [List.foldlM_cons, h1]
    exact h2

theorem bindEnums_some (imp : String) (enums : List Enum) :
    ∀ l : List (String × TypeMapEntry), ∃ l', bindEnums imp enums (some l) = some (some l') := by
  induction enums with
  | nil => exact fun l => ⟨l, rfl⟩
  | cons m ms ih =>
    intro l
    obtain ⟨l1, h1, -⟩ := TypeMap.get_set l m.GQLType ⟨imp ++ "." ++ m.GoType, []⟩
    obtain ⟨l2, h2⟩ := ih l1
    refine ⟨l2, ?_⟩
    unfold bindEnums at h2 ⊢
    rw [List.foldlM_cons, h1]
    exact h2

/-- Every way in which lines 33-54 can end when the TypeMap is not nil: the models template
is rendered first; then either rendering or writing fails and nothing else happens, or the
model file is written and the pipeline continues with the execution stage on a TypeMap
that is still not nil. -/
theorem generateModels_cases {σ : Type} (env : Env σ) (cfg : Config σ) (mb : ModelBuild)
    (w : World) (hnn : cfg.Models ≠ none) :
    (∃ e, env.run "models.gotpl" (.models { mb with PackageName := cfg.Model.Package })
          = .error e ∧
        generateModels env cfg mb w
          = ⟨.error (wrap e "model generation failed"), cfg, w.fs,
              w.log ++ [Event.run "models.gotpl"]⟩) ∨
    (∃ buf e w1, env.run "models.gotpl" (.models { mb with PackageName := cfg.Model.Package })
          = .ok buf ∧
        write env cfg.Model.Filename buf (w.emit (Event.run "models.gotpl")) = (some e, w1) ∧
        generateModels env cfg mb w = ⟨.error e, cfg, w1.fs, w1.log⟩) ∨
    (∃ buf w1 l, env.run "models.gotpl" (.models { mb with PackageName := cfg.Model.Package })
          = .ok buf ∧
        write env cfg.Model.Filename buf (w.emit (Event.run "models.gotpl")) = (none, w1) ∧
        generateModels env cfg mb w = generateExec env { cfg with Models := some l } w1) := by
  unfold generateModels
  simp only []
  split
  · rename_i e he
    exact Or.inl ⟨e, he, rfl⟩
  · rename_i buf hr
    split
    · rename_i e w1 hw
      exact Or.inr (Or.inl ⟨buf, e, w1, hr, hw, rfl⟩)
    · rename_i w1 hw
      obtain ⟨l0, hl0⟩ := Option.ne_none_iff_exists'.mp hnn
      obtain ⟨l1, h1⟩ := bindModels_some (env.ImportPath cfg.Model) mb.Models l0
      obtain ⟨l2, h2⟩ := bindEnums_some (env.ImportPath cfg.Model) mb.Enums l1
      refine Or.inr (Or.inr ⟨buf, w1, l2, hr, hw, ?_⟩)
      rw [hl0, h1]
      simp only []
      rw [h2]

/-! ## The pipeline -/

/-- Every way in which `Config.normalize` can end; it never panics. -/
theorem normalize_cases {σ : Type} (env : Env σ) (cfg : Config σ) :
    (∃ e, (env.pkgNormalize cfg.Model).1 = some e ∧
        (Config.normalize env cfg).1 = .error (wrap e "model")) ∨
    (∃ e, (env.pkgNormalize cfg.Model).1 = none ∧ (env.pkgNormalize cfg.Exec).1 = some e ∧
        (Config.normalize env cfg).1 = .error (wrap e "exec")) ∨
    (∃ e, (env.pkgNormalize cfg.Model).1 = none ∧ (env.pkgNormalize cfg.Exec).1 = none ∧
        (env.parse cfg.SchemaStr).1 = some e ∧ (Config.normalize env cfg).1 = .error e) ∨
    ((env.pkgNormalize cfg.Model).1 = none ∧ (env.pkgNormalize cfg.Exec).1 = none ∧
        (env.parse cfg.SchemaStr).1 = none ∧ (Config.normalize env cfg).1 = .ok) := by
  obtain ⟨l', hc, -⟩ := completeModels_get env.rangeOrder cfg.Models
  unfold Config.normalize
  rcases hm : env.pkgNormalize cfg.Model with ⟨em, model⟩
  rcases he : env.pkgNormalize cfg.Exec with ⟨ee, exec⟩
  rcases hs : env.parse cfg.SchemaStr with ⟨es, s⟩
  cases em <;> cases ee <;> cases es <;> simp [hc, hs, he]

/-- When normalisation does not succeed, `Generate` returns its outcome at once: no file
is touched and no collaborator is called. -/
theorem Generate_of_normalize_fails {σ : Type} (env : Env σ) (cfg : Config σ) (fs : FS)
    (h : (Config.normalize env cfg).1 ≠ .ok) :
    Generate env cfg fs
      = ⟨(Config.normalize env cfg).1, (Config.normalize env cfg).2, fs, []⟩ := by
  unfold Generate
  rcases hn : Config.normalize env cfg with ⟨o, r⟩
  rw [hn] at h
  cases o with
  | ok => exact absurd rfl h
  | error e => rfl
  | panic => rfl

/-- When normalisation succeeds, `Generate` unlinks both destinations, builds the model
plan, and continues with the model stage if the plan is not empty and with the execution
stage otherwise. -/
theorem Generate_of_normalize_ok {σ : Type} (env : Env σ) (cfg : Config σ) (fs : FS)
    (h : (Config.normalize env cfg).1 = .ok) :
    Generate env cfg fs =
      match env.models (Config.normalize env cfg).2 with
      | .error e =>
        ⟨.error (wrap e "model plan failed"), (Config.normalize env cfg).2,
          (afterUnlink env (Config.normalize env cfg).2 fs).fs,
          (afterUnlink env (Config.normalize env cfg).2 fs).log⟩
      | .ok mb =>
        if mb.Models.length > 0 ∨ mb.Enums.length > 0 then
          generateModels env (Config.normalize env cfg).2 mb
            (afterUnlink env (Config.normalize env cfg).2 fs)
        else
          generateExec env (Config.normalize env cfg).2
            (afterUnlink env (Config.normalize env cfg).2 fs) := by
  unfold Generate
  rcases hn : Config.normalize env cfg with ⟨o, r⟩
  rw [hn] at h
  simp only at h
  subst h
  rfl

theorem afterUnlink_log {σ : Type} (env : Env σ) (cfg : Config σ) (fs : FS) :
    (afterUnlink env cfg fs).log
      = [Event.unlink cfg.Exec.Filename, Event.unlink cfg.Model.Filename, Event.models] := by
  unfold afterUnlink unlink
  by_cases h1 : env.unlinkFails cfg.Exec.Filename = true <;>
    by_cases h2 : env.unlinkFails cfg.Model.Filename = true <;> simp [h1, h2]

theorem afterUnlink_fs {σ : Type} (env : Env σ) (cfg : Config σ) (fs : FS) (q : String) :
    (afterUnlink env cfg fs).fs q =
      if (q = cfg.Exec.Filename ∧ env.unlinkFails cfg.Exec.Filename = false) ∨
         (q = cfg.Model.Filename ∧ env.unlinkFails cfg.Model.Filename = false)
      then none else fs q := by
  unfold afterUnlink unlink
  by_cases h1 : env.unlinkFails cfg.Exec.Filename = true <;>
    by_cases h2 : env.unlinkFails cfg.Model.Filename = true <;>
    by_cases q1 : q = cfg.Exec.Filename <;>
    by_cases q2 : q = cfg.Model.Filename <;> simp [h1, h2, q1, q2, FS.remove]

/-! ## Files from before the run -/

theorem fresh_step (p f : String) (fs fs1 : FS) (log rest : List Event) (h : Fresh p fs log)
    (hstep : fs1 = fs ∨ ∃ c, fs1 = fs.write f c ∧ Event.writeFile f c ∈ rest) :
    Fresh p fs1 (log ++ rest) := by
  have hkeep : Fresh p fs (log ++ rest) := by
    rcases h with h | ⟨b, hb, hfs⟩
    · exact Or.inl h
    · exact Or.inr ⟨b, List.mem_append_left _ hb, hfs⟩
  rcases hstep with h1 | ⟨c, h1, hc⟩
  · rw [h1]
    exact hkeep
  · by_cases hp : p = f
    · subst hp
      exact Or.inr ⟨c, List.mem_append_right _ hc, by simp [h1, FS.write]⟩
    · have hsame : fs1 p = fs p := by simp [h1, FS.write, hp]
      unfold Fresh at hkeep ⊢
      rw [hsame]
      exact hkeep

theorem write_step {σ : Type} (env : Env σ) (f : String) (b : Bytes) (w : World) :
    ∃ rest, (write env f b w).2.log = w.log ++ rest ∧
      ((write env f b w).2.fs = w.fs ∨
        ∃ c, (write env f b w).2.fs = w.fs.write f c ∧ Event.writeFile f c ∈ rest) := by
  obtain ⟨rest, hlog, hok, -, -, -⟩ := write_log env f b w
  refine ⟨rest, hlog, ?_⟩
  have hfs := write_fs env f b w
  by_cases h : (write env f b w).1 = none
  · rw [if_pos h] at hfs
    exact Or.inr ⟨_, hfs, hok h⟩
  · rw [if_neg h] at hfs
    exact Or.inl hfs

theorem generateExec_step {σ : Type} (env : Env σ) (cfg : Config σ) (w : World) :
    ∃ rest, (generateExec env cfg w).log = w.log ++ Event.bind :: rest ∧
      ((generateExec env cfg w).fs = w.fs ∨
        ∃ c, (generateExec env cfg w).fs = w.fs.write cfg.Exec.Filename c ∧
          Event.writeFile cfg.Exec.Filename c ∈ Event.bind :: rest) := by
  obtain ⟨-, rest, hlog, -, -, hc⟩ := generateExec_cases env cfg w
  refine ⟨rest, hlog, ?_⟩
  rcases hc with ⟨_, -, h⟩ | ⟨_, -, h⟩ | ⟨_, -, h⟩ | ⟨_, -, h⟩ | ⟨_, c, -, h, hm⟩ | ⟨c, -, h, hm⟩
  · exact Or.inl h
  · exact Or.inl h
  · exact Or.inl h
  · exact Or.inl h
  · exact Or.inr ⟨c, h, List.mem_cons_of_mem _ hm⟩
  · exact Or.inr ⟨c, h, List.mem_cons_of_mem _ hm⟩

theorem generateExec_fresh {σ : Type} (env : Env σ) (cfg : Config σ) (w : World) (p : String)
    (h : Fresh p w.fs w.log) :
    Fresh p (generateExec env cfg w).fs (generateExec env cfg w).log := by
  obtain ⟨rest, hlog, hfs⟩ := generateExec_step env cfg w
  rw [hlog]
  exact fresh_step p cfg.Exec.Filename w.fs _ w.log _ h hfs

theorem write_fresh {σ : Type} (env : Env σ) (f : String) (b : Bytes) (w : World) (p : String)
    (h : Fresh p w.fs w.log) :
    Fresh p (write env f b w).2.fs (write env f b w).2.log := by
  obtain ⟨rest, hlog, hfs⟩ := write_step env f b w
  rw [hlog]
  exact fresh_step p f w.fs _ w.log _ h hfs

theorem emit_fresh (w : World) (e : Event) (p : String) (h : Fresh p w.fs w.log) :
    Fresh p (w.emit e).fs (w.emit e).log := by
  rw [World.emit_log, World.emit_fs]
  exact fresh_step p p w.fs _ w.log _ h (Or.inl rfl)

theorem generateModels_fresh {σ : Type} (env : Env σ) (cfg : Config σ) (mb : ModelBuild)
    (w : World) (hnn : cfg.Models ≠ none) (p : String) (h : Fresh p w.fs w.log) :
    Fresh p (generateModels env cfg mb w).fs (generateModels env cfg mb w).log := by
  have h0 := emit_fresh w (Event.run "models.gotpl") p h
  rcases generateModels_cases env cfg mb w hnn with
    ⟨e, -, hr⟩ | ⟨buf, e, w1, -, hw, hr⟩ | ⟨buf, w1, l, -, hw, hr⟩
  · rw [hr]
    exact h0
  · rw [hr]
    have := write_fresh env cfg.Model.Filename buf _ p h0
    rw [hw] at this
    exact this
  · rw [hr]
    have := write_fresh env cfg.Model.Filename buf _ p h0
    rw [hw] at this
    exact generateExec_fresh env _ w1 p this

theorem generateModels_log {σ : Type} (env : Env σ) (cfg : Config σ) (mb : ModelBuild)
    (w : World) (hnn : cfg.Models ≠ none) :
    ∃ rest, (generateModels env cfg mb w).log = w.log ++ Event.run "models.gotpl" :: rest := by
  rcases generateModels_cases env cfg mb w hnn with
    ⟨e, -, hr⟩ | ⟨buf, e, w1, -, hw, hr⟩ | ⟨buf, w1, l, -, hw, hr⟩
  · exact ⟨[], by rw [hr]⟩
  · obtain ⟨rest, hlog, -⟩ := write_step env cfg.Model.Filename buf
      (w.emit (Event.run "models.gotpl"))
    rw [hw] at hlog
    simp only [World.emit_log, List.append_assoc, List.singleton_append] at hlog
    exact ⟨rest, by rw [hr]; exact hlog⟩
  · obtain ⟨rest, hlog, -⟩ := write_step env cfg.Model.Filename buf
      (w.emit (Event.run "models.gotpl"))
    rw [hw] at hlog
    simp only [World.emit_log, List.append_assoc, List.singleton_append] at hlog
    obtain ⟨rest2, hlog2, -⟩ := generateExec_step env { cfg with Models := some l } w1
    refine ⟨rest ++ Event.bind :: rest2, ?_⟩
    rw [hr, hlog2, hlog]
    simp

/-! ## C5: a parse failure touches nothing -/

/-- C5. Scenario C: for every configuration whose schema text fails to parse, `Generate`
returns an error before any file is created or deleted: the files after the call are the
files before it (so files at the two destinations are untouched), and no collaborator has
been called: no unlink, no plan, no rendering, no write. When both targets normalise, the
error returned is the parser's. -/
theorem generate_parse_failure_atomic {σ : Type} (env : Env σ) (cfg : Config σ) (fs : FS)
    (e : String) (hparse : (env.parse cfg.SchemaStr).1 = some e) :
    (∃ msg, (Generate env cfg fs).out = .error msg) ∧
    (Generate env cfg fs).fs = fs ∧
    (Generate env cfg fs).log = [] ∧
    ((env.pkgNormalize cfg.Model).1 = none → (env.pkgNormalize cfg.Exec).1 = none →
      (Generate env cfg fs).out = .error e) := by
  have hcases := normalize_cases env cfg
  have hne : (Config.normalize env cfg).1 ≠ .ok := by
    rcases hcases with ⟨_, -, h⟩ | ⟨_, -, -, h⟩ | ⟨_, -, -, -, h⟩ | ⟨-, -, hp, -⟩
    · rw [h]; simp
    · rw [h]; simp
    · rw [h]; simp
    · rw [hp] at hparse
      cases hparse
  rw [Generate_of_normalize_fails env cfg fs hne]
  refine ⟨?_, rfl, rfl, ?_⟩
  · rcases hcases with ⟨_, -, h⟩ | ⟨_, -, -, h⟩ | ⟨_, -, -, -, h⟩ | ⟨-, -, -, h⟩
    · exact ⟨_, h⟩
    · exact ⟨_, h⟩
    · exact ⟨_, h⟩
    · exact absurd h hne
  · intro hm he
    rcases hcases with ⟨_, h1, -⟩ | ⟨_, -, h1, -⟩ | ⟨e1, -, -, hp, h⟩ | ⟨-, -, -, h⟩
    · rw [hm] at h1; cases h1
    · rw [he] at h1; cases h1
    · rw [hp] at hparse
      cases hparse
      exact h
    · exact absurd h hne

/-- C5 at the sample environment: the schema text `type` does not parse, and the files of
an earlier run stay as they were. -/
theorem generate_parse_failure_atomic_witness :
    (sampleEnv.parse brokenConfig.SchemaStr).1 = some "syntax error" ∧
    ((∃ msg, (Generate sampleEnv brokenConfig staleFS).out = .error msg) ∧
    (Generate sampleEnv brokenConfig staleFS).fs = staleFS ∧
    (Generate sampleEnv brokenConfig staleFS).log = [] ∧
    ((sampleEnv.pkgNormalize brokenConfig.Model).1 = none →
      (sampleEnv.pkgNormalize brokenConfig.Exec).1 = none →
      (Generate sampleEnv brokenConfig staleFS).out = .error "syntax error")) :=
  ⟨by decide, generate_parse_failure_atomic sampleEnv brokenConfig staleFS "syntax error"
    (by decide)⟩

/-! ## C6: when the destinations are unlinked -/

/-- C6, the claim as stated, fails: with a schema text that does not parse, `Generate`
returns an error without having unlinked anything, and both destination paths still hold
the files of the earlier run. -/
theorem generate_keeps_stale_files_on_parse_error :
    (Generate sampleEnv brokenConfig staleFS).out = .error "syntax error" ∧
    (Generate sampleEnv brokenConfig staleFS).cfg.Exec.Filename = "graph/generated.go" ∧
    (Generate sampleEnv brokenConfig staleFS).cfg.Model.Filename = "graph/model/models.go" ∧
    (Generate sampleEnv brokenConfig staleFS).fs "graph/generated.go" = some [9] ∧
    (Generate sampleEnv brokenConfig staleFS).fs "graph/model/models.go" = some [8] ∧
    (Generate sampleEnv brokenConfig staleFS).log = [] ∧
    ¬ Fresh "graph/generated.go" (Generate sampleEnv brokenConfig staleFS).fs
        (Generate sampleEnv brokenConfig staleFS).log ∧
    ¬ Fresh "graph/model/models.go" (Generate sampleEnv brokenConfig staleFS).fs
        (Generate sampleEnv brokenConfig staleFS).log := by
  have h1 : (Generate sampleEnv brokenConfig staleFS).fs "graph/generated.go" = some [9] := by
    decide
  have h2 : (Generate sampleEnv brokenConfig staleFS).fs "graph/model/models.go" = some [8] := by
    decide
  have h3 : (Generate sampleEnv brokenConfig staleFS).log = [] := by decide
  refine ⟨by decide, by decide, by decide, h1, h2, h3, ?_, ?_⟩
  · unfold Fresh
    rw [h1, h3]
    simp
  · unfold Fresh
    rw [h2, h3]
    simp

/-- C6, amended. `Generate` unlinks the two destination paths only after
`Config.normalize` (target normalisation, TypeMap completion and schema parsing) has
succeeded: they are the first two calls of the run, made before the model plan is built, and
their errors are discarded, so a missing file is not an error. When normalisation does not
succeed, nothing is unlinked and the files are left as they were. In every run in which
normalisation succeeds and the two unlinks take effect, whether or not `Generate` then
returns an error, neither destination holds a file from before the run: each is absent or
holds bytes written during this run. -/
theorem generate_unlinks_after_normalize {σ : Type} (env : Env σ) (cfg : Config σ) (fs : FS) :
    ((Config.normalize env cfg).1 ≠ .ok →
      (Generate env cfg fs).fs = fs ∧ (Generate env cfg fs).log = []) ∧
    ((Config.normalize env cfg).1 = .ok →
      (Generate env cfg fs).out ≠ .panic ∧
      (∃ rest, (Generate env cfg fs).log =
        Event.unlink (Config.normalize env cfg).2.Exec.Filename ::
        Event.unlink (Config.normalize env cfg).2.Model.Filename ::
        Event.models :: rest) ∧
      (env.unlinkFails (Config.normalize env cfg).2.Exec.Filename = false →
        env.unlinkFails (Config.normalize env cfg).2.Model.Filename = false →
        Fresh (Config.normalize env cfg).2.Exec.Filename
          (Generate env cfg fs).fs (Generate env cfg fs).log ∧
        Fresh (Config.normalize env cfg).2.Model.Filename
          (Generate env cfg fs).fs (Generate env cfg fs).log)) := by
  constructor
  · intro hne
    rw [Generate_of_normalize_fails env cfg fs hne]
    exact ⟨rfl, rfl⟩
  · intro hok
    obtain ⟨l', hm, -⟩ := normalize_ok_models env cfg hok
    have hnn : (Config.normalize env cfg).2.Models ≠ none := by rw [hm]; simp
    have hlog0 := afterUnlink_log env (Config.normalize env cfg).2 fs
    have hfresh0 : ∀ p, env.unlinkFails (Config.normalize env cfg).2.Exec.Filename = false →
        env.unlinkFails (Config.normalize env cfg).2.Model.Filename = false →
        (p = (Config.normalize env cfg).2.Exec.Filename ∨
          p = (Config.normalize env cfg).2.Model.Filename) →
        Fresh p (afterUnlink env (Config.normalize env cfg).2 fs).fs
          (afterUnlink env (Config.normalize env cfg).2 fs).log := by
      intro p hE hM hp
      left
      rw [afterUnlink_fs]
      rcases hp with hp | hp <;> simp [hp, hE, hM]
    rw [Generate_of_normalize_ok env cfg fs hok]
    cases hmod : env.models (Config.normalize env cfg).2 with
    | error e =>
      simp only []
      refine ⟨by simp, ⟨[], by rw [hlog0]⟩, ?_⟩
      intro hE hM
      exact ⟨hfresh0 _ hE hM (Or.inl rfl), hfresh0 _ hE hM (Or.inr rfl)⟩
    | ok mb =>
      simp only []
      by_cases hne : mb.Models.length > 0 ∨ mb.Enums.length > 0
      · rw [if_pos hne]
        obtain ⟨rest, hlog⟩ := generateModels_log env (Config.normalize env cfg).2 mb
          (afterUnlink env (Config.normalize env cfg).2 fs) hnn
        refine ⟨?_, ⟨Event.run "models.gotpl" :: rest, by rw [hlog, hlog0]; rfl⟩, ?_⟩
        · rcases generateModels_cases env (Config.normalize env cfg).2 mb
            (afterUnlink env (Config.normalize env cfg).2 fs) hnn with
            ⟨e, -, hr⟩ | ⟨buf, e, w1, -, hw, hr⟩ | ⟨buf, w1, l, -, hw, hr⟩
          · rw [hr]; simp
          · rw [hr]; simp
          · rw [hr]
            obtain ⟨-, rest2, -, -, -, hc⟩ := generateExec_cases env
              { (Config.normalize env cfg).2 with Models := some l } w1
            rcases hc with ⟨_, h, -⟩ | ⟨_, h, -⟩ | ⟨_, h, -⟩ | ⟨_, h, -⟩ | ⟨_, _, h, -⟩ |
              ⟨_, h, -⟩ <;> rw [h] <;> simp
        · intro hE hM
          exact ⟨generateModels_fresh env _ mb _ hnn _ (hfresh0 _ hE hM (Or.inl rfl)),
            generateModels_fresh env _ mb _ hnn _ (hfresh0 _ hE hM (Or.inr rfl))⟩
      · rw [if_neg hne]
        obtain ⟨rest, hlog, -⟩ := generateExec_step env (Config.normalize env cfg).2
          (afterUnlink env (Config.normalize env cfg).2 fs)
        refine ⟨?_, ⟨Event.bind :: rest, by rw [hlog, hlog0]; rfl⟩, ?_⟩
        · obtain ⟨-, rest2, -, -, -, hc⟩ := generateExec_cases env
            (Config.normalize env cfg).2 (afterUnlink env (Config.normalize env cfg).2 fs)
          rcases hc with ⟨_, h, -⟩ | ⟨_, h, -⟩ | ⟨_, h, -⟩ | ⟨_, h, -⟩ | ⟨_, _, h, -⟩ |
            ⟨_, h, -⟩ <;> rw [h] <;> simp
        · intro hE hM
          exact ⟨generateExec_fresh env _ _ _ (hfresh0 _ hE hM (Or.inl rfl)),
            generateExec_fresh env _ _ _ (hfresh0 _ hE hM (Or.inr rfl))⟩

/-- C6, amended, at the sample configuration with files of an earlier run in place:
normalisation succeeds, both unlinks take effect, and both destinations are fresh. -/
theorem generate_unlinks_after_normalize_witness :
    (Config.normalize sampleEnv sampleConfig).1 = .ok ∧
    (∃ rest, (Generate sampleEnv sampleConfig staleFS).log =
        Event.unlink (Config.normalize sampleEnv sampleConfig).2.Exec.Filename ::
        Event.unlink (Config.normalize sampleEnv sampleConfig).2.Model.Filename ::
        Event.models :: rest) ∧
    Fresh (Config.normalize sampleEnv sampleConfig).2.Exec.Filename
      (Generate sampleEnv sampleConfig staleFS).fs (Generate sampleEnv sampleConfig staleFS).log ∧
    Fresh (Config.normalize sampleEnv sampleConfig).2.Model.Filename
      (Generate sampleEnv sampleConfig staleFS).fs (Generate sampleEnv sampleConfig staleFS).log :=
  ⟨by decide,
    ((generate_unlinks_after_normalize sampleEnv sampleConfig staleFS).2 (by decide)).2.1,
    ((generate_unlinks_after_normalize sampleEnv sampleConfig staleFS).2 (by decide)).2.2
      (by decide) (by decide)⟩

/-! ## Outcomes as functions of the collaborators' answers -/

/-- The outcome of the execution stage is decided by the answers of `Config.bind`, the
template engine, the two file-system calls and `Config.validate`; it depends neither on the
files nor on the formatter. -/
theorem generateExec_out {σ : Type} (env : Env σ) (cfg : Config σ) (w : World) :
    (generateExec env cfg w).out =
      match env.bind cfg with
      | .error e => .error (wrap e "exec plan failed")
      | .ok build =>
        match env.run "generated.gotpl"
          (.exec ⟨cfg.Exec.Package, cfg.SchemaStr, build.Objects⟩) with
        | .error e => .error (wrap e "exec codegen failed")
        | .ok _ =>
          match env.mkdirAll (filepath.Dir cfg.Exec.Filename) with
          | some e => .error (wrap e "failed to create directory")
          | none =>
            match env.writeFile cfg.Exec.Filename with
            | some e => .error (wrap e ("failed to write " ++ cfg.Exec.Filename))
            | none =>
              match env.validate cfg with
              | some e => .error (wrap e "validation failed")
              | none => .ok := by
  unfold generateExec
  cases hb : env.bind cfg with
  | error e => rfl
  | ok build =>
    simp only []
    cases hr : env.run "generated.gotpl"
        (.exec ⟨cfg.Exec.Package, cfg.SchemaStr, build.Objects⟩) with
    | error e => rfl
    | ok buf =>
      simp only []
      have herr := write_err env cfg.Exec.Filename buf
        ((w.emit Event.bind).emit (Event.run "generated.gotpl"))
      rcases hw : write env cfg.Exec.Filename buf
        ((w.emit Event.bind).emit (Event.run "generated.gotpl")) with ⟨we, w1⟩
      rw [hw] at herr
      simp only [] at herr
      cases hm : env.mkdirAll (filepath.Dir cfg.Exec.Filename) with
      | some e1 =>
        rw [hm] at herr
        subst herr
        rfl
      | none =>
        rw [hm] at herr
        cases hwr : env.writeFile cfg.Exec.Filename with
        | some e2 =>
          rw [hwr] at herr
          subst herr
          rfl
        | none =>
          rw [hwr] at herr
          subst herr
          simp only []
          cases env.validate cfg <;> rfl

theorem generateExec_out_indep {σ : Type} (env : Env σ) (cfg : Config σ) (w w1 : World)
    (process1 : String → Bytes → Except String Bytes) :
    (generateExec { env with process := process1 } cfg w1).out = (generateExec env cfg w).out := by
  rw [generateExec_out, generateExec_out]

theorem write_err_indep {σ : Type} (env : Env σ) (f : String) (b : Bytes) (w w1 : World)
    (process1 : String → Bytes → Except String Bytes) :
    (write { env with process := process1 } f b w1).1 = (write env f b w).1 := by
  rw [write_err, write_err]

theorem generateModels_out_indep {σ : Type} (env : Env σ) (cfg : Config σ) (mb : ModelBuild)
    (w w1 : World) (process1 : String → Bytes → Except String Bytes) :
    (generateModels { env with process := process1 } cfg mb w1).out
      = (generateModels env cfg mb w).out := by
  unfold generateModels
  simp only []
  cases hr : env.run "models.gotpl" (.models ⟨cfg.Model.Package, mb.Models, mb.Enums⟩) with
  | error e => rfl
  | ok buf =>
    simp only []
    have herr := write_err_indep env cfg.Model.Filename buf
      (w.emit (Event.run "models.gotpl")) (w1.emit (Event.run "models.gotpl")) process1
    rcases hw : write env cfg.Model.Filename buf (w.emit (Event.run "models.gotpl"))
      with ⟨we, wa⟩
    rcases hw1 : write { env with process := process1 } cfg.Model.Filename buf
      (w1.emit (Event.run "models.gotpl")) with ⟨we1, wb⟩
    rw [hw, hw1] at herr
    simp only [] at herr
    subst herr
    cases we1 with
    | some e => rfl
    | none =>
      simp only []
      cases bindModels (env.ImportPath cfg.Model) mb.Models cfg.Models with
      | none => rfl
      | some m =>
        simp only []
        cases bindEnums (env.ImportPath cfg.Model) mb.Enums m with
        | none => rfl
        | some m2 => exact generateExec_out_indep env _ wa wb process1

theorem normalize_indep {σ : Type} (env : Env σ) (cfg : Config σ)
    (process1 : String → Bytes → Except String Bytes) :
    Config.normalize { env with process := process1 } cfg = Config.normalize env cfg := rfl

/-- The outcome of `Generate` does not depend on the files it starts from, nor on what the
formatter `imports.Process` returns. -/
theorem Generate_out_indep {σ : Type} (env : Env σ) (cfg : Config σ) (fs fs1 : FS)
    (process1 : String → Bytes → Except String Bytes) :
    (Generate { env with process := process1 } cfg fs1).out = (Generate env cfg fs).out := by
  unfold Generate
  rw [normalize_indep]
  rcases hn : Config.normalize env cfg with ⟨o, r⟩
  cases o with
  | error e => rfl
  | panic => rfl
  | ok =>
    simp only []
    cases hm : env.models r with
    | error e => rfl
    | ok mb =>
      simp only []
      by_cases hne : mb.Models.length > 0 ∨ mb.Enums.length > 0
      · rw [if_pos hne, if_pos hne]
        exact generateModels_out_indep env r mb _ _ process1
      · rw [if_neg hne, if_neg hne]
        exact generateExec_out_indep env r _ _ process1

theorem Env.process_eta {σ : Type} (env : Env σ) : { env with process := env.process } = env := by
  cases env
  rfl

theorem Generate_out_fs {σ : Type} (env : Env σ) (cfg : Config σ) (fs fs1 : FS) :
    (Generate env cfg fs1).out = (Generate env cfg fs).out := by
  have h := Generate_out_indep env cfg fs fs1 env.process
  rw [Env.process_eta] at h
  exact h

/-! ## C3: formatting degrades, it does not fail -/

/-- C3. Degrade-not-fail formatting: for every destination path and raw bytes `b`, if
directory creation succeeds, the formatter returns an error and the file write succeeds,
then `gofmt` returns `b` unchanged alongside its error, `write` returns no error, and the
file at the path afterwards contains exactly `b`, every other file being as before. Hence a
formatter failure alone never makes `Generate` return an error: the outcome of `Generate`
is the same whatever the formatter returns. -/
theorem write_degrades_on_format_failure {σ : Type} (env : Env σ) (path : String) (b : Bytes)
    (w : World) (e : String)
    (hdir : env.mkdirAll (filepath.Dir path) = none)
    (hfmt : env.process path b = .error e)
    (hwr : env.writeFile path = none) :
    gofmt env path b = (b, some (wrap e "unable to gofmt")) ∧
    (write env path b w).1 = none ∧
    (write env path b w).2.fs path = some b ∧
    (∀ q, q ≠ path → (write env path b w).2.fs q = w.fs q) ∧
    (∀ (cfg : Config σ) (fs : FS) (process1 : String → Bytes → Except String Bytes),
      (Generate { env with process := process1 } cfg fs).out = (Generate env cfg fs).out) := by
  have hg : gofmt env path b = (b, some (wrap e "unable to gofmt")) := by
    unfold gofmt
    rw [hfmt]
  have herr : (write env path b w).1 = none := by
    rw [write_err, hdir, hwr]
  have hfs := write_fs env path b w
  rw [if_pos herr, hg] at hfs
  refine ⟨hg, herr, ?_, ?_, ?_⟩
  · rw [hfs]
    simp [FS.write]
  · intro q hq
    rw [hfs]
    simp [FS.write, hq]
  · intro cfg fs process1
    exact Generate_out_indep env cfg fs fs process1

/-- C3 with a formatter that fails: the Exec file of the sample configuration is written
with the raw bytes. -/
theorem write_degrades_on_format_failure_witness :
    failingFormatEnv.mkdirAll (filepath.Dir "graph/generated.go") = none ∧
    failingFormatEnv.process "graph/generated.go" [3, 4, 5] = .error "expected declaration" ∧
    failingFormatEnv.writeFile "graph/generated.go" = none ∧
    (gofmt failingFormatEnv "graph/generated.go" [3, 4, 5]
        = ([3, 4, 5], some (wrap "expected declaration" "unable to gofmt")) ∧
    (write failingFormatEnv "graph/generated.go" [3, 4, 5] ⟨staleFS, []⟩).1 = none ∧
    (write failingFormatEnv "graph/generated.go" [3, 4, 5] ⟨staleFS, []⟩).2.fs
        "graph/generated.go" = some [3, 4, 5] ∧
    (∀ q, q ≠ "graph/generated.go" →
      (write failingFormatEnv "graph/generated.go" [3, 4, 5] ⟨staleFS, []⟩).2.fs q
        = (World.mk staleFS []).fs q) ∧
    (∀ (cfg : Config Unit) (fs : FS) (process1 : String → Bytes → Except String Bytes),
      (Generate { failingFormatEnv with process := process1 } cfg fs).out
        = (Generate failingFormatEnv cfg fs).out)) :=
  ⟨rfl, rfl, rfl,
    write_degrades_on_format_failure failingFormatEnv "graph/generated.go" [3, 4, 5]
      ⟨staleFS, []⟩ "expected declaration" rfl rfl rfl⟩

/-! ## C8: the errors of `Generate` -/

theorem generateExec_error {σ : Type} (env : Env σ) (cfg : Config σ) (w : World) (msg : String)
    (h : (generateExec env cfg w).out = .error msg) :
    (∃ e, env.bind cfg = .error e ∧ msg = wrap e "exec plan failed") ∨
    (∃ e d, env.run "generated.gotpl" d = .error e ∧ msg = wrap e "exec codegen failed") ∨
    (∃ e, env.mkdirAll (filepath.Dir cfg.Exec.Filename) = some e ∧
      msg = wrap e "failed to create directory") ∨
    (∃ e, env.writeFile cfg.Exec.Filename = some e ∧
      msg = wrap e ("failed to write " ++ cfg.Exec.Filename)) ∨
    (∃ e, env.validate cfg = some e ∧ msg = wrap e "validation failed") := by
  rw [generateExec_out] at h
  cases hb : env.bind cfg with
  | error e =>
    rw [hb] at h
    simp only [Outcome.error.injEq] at h
    exact Or.inl ⟨e, rfl, h.symm⟩
  | ok build =>
    rw [hb] at h
    simp only [] at h
    cases hr : env.run "generated.gotpl"
        (.exec ⟨cfg.Exec.Package, cfg.SchemaStr, build.Objects⟩) with
    | error e =>
      rw [hr] at h
      simp only [Outcome.error.injEq] at h
      exact Or.inr (Or.inl ⟨e, _, hr, h.symm⟩)
    | ok buf =>
      rw [hr] at h
      simp only [] at h
      cases hm : env.mkdirAll (filepath.Dir cfg.Exec.Filename) with
      | some e =>
        rw [hm] at h
        simp only [Outcome.error.injEq] at h
        exact Or.inr (Or.inr (Or.inl ⟨e, rfl, h.symm⟩))
      | none =>
        rw [hm] at h
        simp only [] at h
        cases hw : env.writeFile cfg.Exec.Filename with
        | some e =>
          rw [hw] at h
          simp only [Outcome.error.injEq] at h
          exact Or.inr (Or.inr (Or.inr (Or.inl ⟨e, rfl, h.symm⟩)))
        | none =>
          rw [hw] at h
          simp only [] at h
          cases hv : env.validate cfg with
          | some e =>
            rw [hv] at h
            simp only [Outcome.error.injEq] at h
            exact Or.inr (Or.inr (Or.inr (Or.inr ⟨e, rfl, h.symm⟩)))
          | none =>
            rw [hv] at h
            cases h

/-- C8, the claim as stated, fails: when the schema text does not parse, `Generate`
returns the parser's error as it is, here the message `syntax error`, which is not a
message wrapped with the context `schema load failed`. -/
theorem generate_parse_error_unwrapped :
    (sampleEnv.parse brokenConfig.SchemaStr).1 = some "syntax error" ∧
    (Generate sampleEnv brokenConfig staleFS).out = .error "syntax error" ∧
    ¬ ∃ e, (Generate sampleEnv brokenConfig staleFS).out
        = .error (wrap e "schema load failed") := by
  have hout : (Generate sampleEnv brokenConfig staleFS).out = .error "syntax error" := by
    decide
  refine ⟨by decide, hout, ?_⟩
  rintro ⟨e, h⟩
  rw [hout] at h
  simp only [Outcome.error.injEq] at h
  have hl := congrArg String.length h
  simp only [wrap, String.length_append] at hl
  have h1 : "syntax error".length = 12 := by decide
  have h2 : "schema load failed".length = 18 := by decide
  rw [h1, h2] at hl
  omega

theorem write_error {σ : Type} (env : Env σ) (f : String) (b : Bytes) (w : World) (msg : String)
    (h : (write env f b w).1 = some msg) :
    (∃ e, env.mkdirAll (filepath.Dir f) = some e ∧ msg = wrap e "failed to create directory") ∨
    (∃ e, env.writeFile f = some e ∧ msg = wrap e ("failed to write " ++ f)) := by
  rw [write_err] at h
  cases hm : env.mkdirAll (filepath.Dir f) with
  | some e =>
    rw [hm] at h
    simp only [Option.some.injEq] at h
    exact Or.inl ⟨e, rfl, h.symm⟩
  | none =>
    rw [hm] at h
    simp only [] at h
    cases hw : env.writeFile f with
    | some e =>
      rw [hw] at h
      simp only [Option.some.injEq] at h
      exact Or.inr ⟨e, rfl, h.symm⟩
    | none =>
      rw [hw] at h
      cases h

/-- C8, amended. Every error that `Generate` returns is the cause's message behind a
context, a colon and a blank, except the schema parse error, which is returned as the
parser gave it, with no context. The contexts are: `model` and `exec` for the normalisation
of the two targets, `model plan failed`, `model generation failed`, `exec plan failed`,
`exec codegen failed`, `validation failed`, and, for the finalizer,
`failed to create directory` and `failed to write` followed by the file name. -/
theorem generate_error_is_stage_qualified {σ : Type} (env : Env σ) (cfg : Config σ) (fs : FS)
    (msg : String) (h : (Generate env cfg fs).out = .error msg) :
    (∃ e, (env.pkgNormalize cfg.Model).1 = some e ∧ msg = "model" ++ ": " ++ e) ∨
    (∃ e, (env.pkgNormalize cfg.Exec).1 = some e ∧ msg = "exec" ++ ": " ++ e) ∨
    ((env.parse cfg.SchemaStr).1 = some msg) ∨
    (∃ e, env.models (Config.normalize env cfg).2 = .error e ∧
      msg = "model plan failed" ++ ": " ++ e) ∨
    (∃ e d, env.run "models.gotpl" d = .error e ∧
      msg = "model generation failed" ++ ": " ++ e) ∨
    (∃ e c, env.bind c = .error e ∧ msg = "exec plan failed" ++ ": " ++ e) ∨
    (∃ e d, env.run "generated.gotpl" d = .error e ∧
      msg = "exec codegen failed" ++ ": " ++ e) ∨
    (∃ e c, env.validate c = some e ∧ msg = "validation failed" ++ ": " ++ e) ∨
    (∃ e f, (f = (Config.normalize env cfg).2.Model.Filename ∨
        f = (Config.normalize env cfg).2.Exec.Filename) ∧
      env.mkdirAll (filepath.Dir f) = some e ∧
      msg = "failed to create directory" ++ ": " ++ e) ∨
    (∃ e f, (f = (Config.normalize env cfg).2.Model.Filename ∨
        f = (Config.normalize env cfg).2.Exec.Filename) ∧
      env.writeFile f = some e ∧ msg = "failed to write " ++ f ++ ": " ++ e) := by
  by_cases hok : (Config.normalize env cfg).1 = .ok
  · obtain ⟨l', hm, -⟩ := normalize_ok_models env cfg hok
    have hnn : (Config.normalize env cfg).2.Models ≠ none := by rw [hm]; simp
    rw [Generate_of_normalize_ok env cfg fs hok] at h
    cases hmod : env.models (Config.normalize env cfg).2 with
    | error e =>
      rw [hmod] at h
      simp only [Outcome.error.injEq] at h
      exact Or.inr (Or.inr (Or.inr (Or.inl ⟨e, rfl, h.symm⟩)))
    | ok mb =>
      rw [hmod] at h
      simp only [] at h
      by_cases hne : mb.Models.length > 0 ∨ mb.Enums.length > 0
      · rw [if_pos hne] at h
        rcases generateModels_cases env (Config.normalize env cfg).2 mb
          (afterUnlink env (Config.normalize env cfg).2 fs) hnn with
          ⟨e, he, hr⟩ | ⟨buf, e, w1, -, hw, hr⟩ | ⟨buf, w1, l, -, hw, hr⟩
        · rw [hr] at h
          simp only [Outcome.error.injEq] at h
          exact Or.inr (Or.inr (Or.inr (Or.inr (Or.inl ⟨e, _, he, h.symm⟩))))
        · rw [hr] at h
          simp only [Outcome.error.injEq] at h
          subst h
          have hw1 : (write env (Config.normalize env cfg).2.Model.Filename buf
              ((afterUnlink env (Config.normalize env cfg).2 fs).emit
                (Event.run "models.gotpl"))).1 = some e := by rw [hw]
          rcases write_error env _ buf _ e hw1 with ⟨e1, h1, h2⟩ | ⟨e1, h1, h2⟩
          · exact Or.inr (Or.inr (Or.inr (Or.inr (Or.inr (Or.inr (Or.inr (Or.inr (Or.inl
              ⟨e1, _, Or.inl rfl, h1, h2⟩))))))))
          · exact Or.inr (Or.inr (Or.inr (Or.inr (Or.inr (Or.inr (Or.inr (Or.inr (Or.inr
              ⟨e1, _, Or.inl rfl, h1, h2⟩))))))))
        · rw [hr] at h
          rcases generateExec_error env { (Config.normalize env cfg).2 with Models := some l } w1 msg h with
            ⟨e, h1, h2⟩ | ⟨e, d, h1, h2⟩ | ⟨e, h1, h2⟩ | ⟨e, h1, h2⟩ | ⟨e, h1, h2⟩
          · exact Or.inr (Or.inr (Or.inr (Or.inr (Or.inr (Or.inl ⟨e, _, h1, h2⟩)))))
          · exact Or.inr (Or.inr (Or.inr (Or.inr (Or.inr (Or.inr (Or.inl ⟨e, d, h1, h2⟩))))))
          · exact Or.inr (Or.inr (Or.inr (Or.inr (Or.inr (Or.inr (Or.inr (Or.inr (Or.inl ⟨e, _, Or.inr rfl, h1, h2⟩))))))))
          · exact Or.inr (Or.inr (Or.inr (Or.inr (Or.inr (Or.inr (Or.inr (Or.inr (Or.inr (⟨e, _, Or.inr rfl, h1, h2⟩)))))))))
          · exact Or.inr (Or.inr (Or.inr (Or.inr (Or.inr (Or.inr (Or.inr (Or.inl ⟨e, _, h1, h2⟩)))))))
      · rw [if_neg hne] at h
        rcases generateExec_error env (Config.normalize env cfg).2 (afterUnlink env (Config.normalize env cfg).2 fs) msg h with
          ⟨e, h1, h2⟩ | ⟨e, d, h1, h2⟩ | ⟨e, h1, h2⟩ | ⟨e, h1, h2⟩ | ⟨e, h1, h2⟩
        · exact Or.inr (Or.inr (Or.inr (Or.inr (Or.inr (Or.inl ⟨e, _, h1, h2⟩)))))
        · exact Or.inr (Or.inr (Or.inr (Or.inr (Or.inr (Or.inr (Or.inl ⟨e, d, h1, h2⟩))))))
        · exact Or.inr (Or.inr (Or.inr (Or.inr (Or.inr (Or.inr (Or.inr (Or.inr (Or.inl ⟨e, _, Or.inr rfl, h1, h2⟩))))))))
        · exact Or.inr (Or.inr (Or.inr (Or.inr (Or.inr (Or.inr (Or.inr (Or.inr (Or.inr (⟨e, _, Or.inr rfl, h1, h2⟩)))))))))
        · exact Or.inr (Or.inr (Or.inr (Or.inr (Or.inr (Or.inr (Or.inr (Or.inl ⟨e, _, h1, h2⟩)))))))
  · rw [Generate_of_normalize_fails env cfg fs hok] at h
    simp only [] at h
    rcases normalize_cases env cfg with ⟨e, h1, h2⟩ | ⟨e, -, h1, h2⟩ | ⟨e, -, -, h1, h2⟩ |
      ⟨-, -, -, h2⟩
    · rw [h2] at h
      simp only [Outcome.error.injEq] at h
      exact Or.inl ⟨e, h1, h.symm⟩
    · rw [h2] at h
      simp only [Outcome.error.injEq] at h
      exact Or.inr (Or.inl ⟨e, h1, h.symm⟩)
    · rw [h2] at h
      simp only [Outcome.error.injEq] at h
      subst h
      exact Or.inr (Or.inr (Or.inl h1))
    · exact absurd h2 hok

/-- C8, amended, with a template engine that fails on the models template: the error of
`Generate` is the engine's message behind the context `model generation failed`. -/
theorem generate_error_is_stage_qualified_witness :
    (Generate failingRenderEnv sampleConfig staleFS).out
      = .error "model generation failed: template: bad" ∧
    ((∃ e, (failingRenderEnv.pkgNormalize sampleConfig.Model).1 = some e ∧ "model generation failed: template: bad" = "model" ++ ": " ++ e) ∨
    (∃ e, (failingRenderEnv.pkgNormalize sampleConfig.Exec).1 = some e ∧ "model generation failed: template: bad" = "exec" ++ ": " ++ e) ∨
    ((failingRenderEnv.parse sampleConfig.SchemaStr).1 = some "model generation failed: template: bad") ∨
    (∃ e, failingRenderEnv.models (Config.normalize failingRenderEnv sampleConfig).2 = .error e ∧
      "model generation failed: template: bad" = "model plan failed" ++ ": " ++ e) ∨
    (∃ e d, failingRenderEnv.run "models.gotpl" d = .error e ∧
      "model generation failed: template: bad" = "model generation failed" ++ ": " ++ e) ∨
    (∃ e c, failingRenderEnv.bind c = .error e ∧ "model generation failed: template: bad" = "exec plan failed" ++ ": " ++ e) ∨
    (∃ e d, failingRenderEnv.run "generated.gotpl" d = .error e ∧
      "model generation failed: template: bad" = "exec codegen failed" ++ ": " ++ e) ∨
    (∃ e c, failingRenderEnv.validate c = some e ∧ "model generation failed: template: bad" = "validation failed" ++ ": " ++ e) ∨
    (∃ e f, (f = (Config.normalize failingRenderEnv sampleConfig).2.Model.Filename ∨
        f = (Config.normalize failingRenderEnv sampleConfig).2.Exec.Filename) ∧
      failingRenderEnv.mkdirAll (filepath.Dir f) = some e ∧
      "model generation failed: template: bad" = "failed to create directory" ++ ": " ++ e) ∨
    (∃ e f, (f = (Config.normalize failingRenderEnv sampleConfig).2.Model.Filename ∨
        f = (Config.normalize failingRenderEnv sampleConfig).2.Exec.Filename) ∧
      failingRenderEnv.writeFile f = some e ∧ "model generation failed: template: bad" = "failed to write " ++ f ++ ": " ++ e)) :=
  ⟨by decide,
    generate_error_is_stage_qualified failingRenderEnv sampleConfig staleFS
      "model generation failed: template: bad" (by decide)⟩

/-! ## C9: when the model file is written -/

/-- Once the directory exists, `write` calls `ioutil.WriteFile` on the destination with
the bytes of `gofmt`. -/
theorem write_event {σ : Type} (env : Env σ) (f : String) (b : Bytes) (w : World)
    (hdir : env.mkdirAll (filepath.Dir f) = none) :
    Event.writeFile f (gofmt env f b).1 ∈ (write env f b w).2.log := by
  rw [write_eq, hdir]
  cases env.writeFile f <;> cases (gofmt env f b).2 <;> simp

/-- C9, the claim as stated, fails: with a template engine that fails on the models
template, normalisation and model planning succeed and the plan holds one model, yet the
Model destination is not written: `ioutil.WriteFile` is never called and no file is at the
Model destination after the run. -/
theorem generate_model_not_written_on_render_error :
    (Config.normalize failingRenderEnv sampleConfig).1 = .ok ∧
    (∃ mb, failingRenderEnv.models (Config.normalize failingRenderEnv sampleConfig).2 = .ok mb ∧
      mb.Models.length = 1) ∧
    (Generate failingRenderEnv sampleConfig staleFS).out
      = .error "model generation failed: template: bad" ∧
    (Generate failingRenderEnv sampleConfig staleFS).log
      = [Event.unlink "graph/generated.go", Event.unlink "graph/model/models.go",
          Event.models, Event.run "models.gotpl"] ∧
    (∀ b, Event.writeFile "graph/model/models.go" b
      ∉ (Generate failingRenderEnv sampleConfig staleFS).log) ∧
    (Generate failingRenderEnv sampleConfig staleFS).fs "graph/model/models.go" = none := by
  have hlog : (Generate failingRenderEnv sampleConfig staleFS).log
      = [Event.unlink "graph/generated.go", Event.unlink "graph/model/models.go",
          Event.models, Event.run "models.gotpl"] := by decide
  refine ⟨by decide, ⟨_, rfl, rfl⟩, by decide, hlog, ?_, by decide⟩
  intro b
  rw [hlog]
  simp

theorem afterUnlink_no_write {σ : Type} (env : Env σ) (cfg : Config σ) (fs : FS) :
    (∀ f b, Event.writeFile f b ∉ (afterUnlink env cfg fs).log) ∧
    (∀ t, Event.run t ∉ (afterUnlink env cfg fs).log) ∧
    Event.bind ∉ (afterUnlink env cfg fs).log := by
  rw [afterUnlink_log]
  simp

/-- C9, amended. In every run of `Generate` in which normalisation and model planning
succeed:

* the models template is rendered if and only if the plan holds at least one model or enum;
* when the plan is empty, the call after `Config.models` is `Config.bind`, so nothing is
  rendered or written for the Model target, `ioutil.WriteFile` is called on no path but the
  Exec destination, the TypeMap is the one normalisation left, and, when the unlink of the
  Model path takes effect and the Model path is not the Exec path, no file is at the Model
  destination after the run;
* when the plan is not empty and rendering succeeds, the Model file is written as soon as
  its directory can be created: `ioutil.WriteFile` is called on the Model destination with
  the formatted bytes (the raw bytes if formatting fails), and if that call succeeds and the
  Model path is not the Exec path, these bytes are the file at the Model destination after
  the run;
* when the plan is not empty and rendering fails, `Generate` returns that error with the
  context `model generation failed`, nothing is written and the execution stage is not
  entered. -/
theorem generate_model_artifact {σ : Type} (env : Env σ) (cfg : Config σ) (fs : FS)
    (mb : ModelBuild) (hok : (Config.normalize env cfg).1 = .ok)
    (hplan : env.models (Config.normalize env cfg).2 = .ok mb) :
    (Event.run "models.gotpl" ∈ (Generate env cfg fs).log ↔
      (mb.Models.length > 0 ∨ mb.Enums.length > 0)) ∧
    (¬ (mb.Models.length > 0 ∨ mb.Enums.length > 0) →
      (∃ rest, (Generate env cfg fs).log =
        Event.unlink (Config.normalize env cfg).2.Exec.Filename ::
        Event.unlink (Config.normalize env cfg).2.Model.Filename ::
        Event.models :: Event.bind :: rest) ∧
      (∀ f b, Event.writeFile f b ∈ (Generate env cfg fs).log →
        f = (Config.normalize env cfg).2.Exec.Filename) ∧
      (Generate env cfg fs).cfg.Models = (Config.normalize env cfg).2.Models ∧
      (env.unlinkFails (Config.normalize env cfg).2.Model.Filename = false →
        (Config.normalize env cfg).2.Model.Filename
          ≠ (Config.normalize env cfg).2.Exec.Filename →
        (Generate env cfg fs).fs (Config.normalize env cfg).2.Model.Filename = none)) ∧
    ((mb.Models.length > 0 ∨ mb.Enums.length > 0) →
      ∀ buf, env.run "models.gotpl"
          (.models ⟨(Config.normalize env cfg).2.Model.Package, mb.Models, mb.Enums⟩) = .ok buf →
        env.mkdirAll (filepath.Dir (Config.normalize env cfg).2.Model.Filename) = none →
        Event.writeFile (Config.normalize env cfg).2.Model.Filename
            (gofmt env (Config.normalize env cfg).2.Model.Filename buf).1
          ∈ (Generate env cfg fs).log ∧
        (env.writeFile (Config.normalize env cfg).2.Model.Filename = none →
          (Config.normalize env cfg).2.Model.Filename
            ≠ (Config.normalize env cfg).2.Exec.Filename →
          (Generate env cfg fs).fs (Config.normalize env cfg).2.Model.Filename
            = some (gofmt env (Config.normalize env cfg).2.Model.Filename buf).1)) ∧
    ((mb.Models.length > 0 ∨ mb.Enums.length > 0) →
      ∀ e, env.run "models.gotpl"
          (.models ⟨(Config.normalize env cfg).2.Model.Package, mb.Models, mb.Enums⟩)
            = .error e →
        (Generate env cfg fs).out = .error (wrap e "model generation failed") ∧
        (∀ f b, Event.writeFile f b ∉ (Generate env cfg fs).log) ∧
        Event.bind ∉ (Generate env cfg fs).log) := by
  obtain ⟨l', hm, -⟩ := normalize_ok_models env cfg hok
  have hnn : (Config.normalize env cfg).2.Models ≠ none := by rw [hm]; simp
  have hlog0 := afterUnlink_log env (Config.normalize env cfg).2 fs
  obtain ⟨hnw0, hnr0, hnb0⟩ := afterUnlink_no_write env (Config.normalize env cfg).2 fs
  have hgen := Generate_of_normalize_ok env cfg fs hok
  rw [hplan] at hgen
  simp only [] at hgen
  -- the empty plan
  have hempty : ¬ (mb.Models.length > 0 ∨ mb.Enums.length > 0) →
      Generate env cfg fs = generateExec env (Config.normalize env cfg).2
        (afterUnlink env (Config.normalize env cfg).2 fs) := by
    intro hne
    rw [hgen, if_neg hne]
  have hfull : (mb.Models.length > 0 ∨ mb.Enums.length > 0) →
      Generate env cfg fs = generateModels env (Config.normalize env cfg).2 mb
        (afterUnlink env (Config.normalize env cfg).2 fs) := by
    intro hne
    rw [hgen, if_pos hne]
  refine ⟨?_, ?_, ?_, ?_⟩
  · constructor
    · intro hmem
      by_contra hne
      rw [hempty hne] at hmem
      obtain ⟨-, rest, hlog, -, hnr, -⟩ := generateExec_cases env (Config.normalize env cfg).2
        (afterUnlink env (Config.normalize env cfg).2 fs)
      rw [hlog] at hmem
      rcases List.mem_append.mp hmem with h | h
      · exact hnr0 _ h
      · rcases List.mem_cons.mp h with h | h
        · cases h
        · exact hnr h
    · intro hne
      rw [hfull hne]
      obtain ⟨rest, hlog⟩ := generateModels_log env (Config.normalize env cfg).2 mb
        (afterUnlink env (Config.normalize env cfg).2 fs) hnn
      rw [hlog]
      simp
  · intro hne
    rw [hempty hne]
    obtain ⟨hcfg, rest, hlog, hwf, -, -⟩ := generateExec_cases env (Config.normalize env cfg).2
      (afterUnlink env (Config.normalize env cfg).2 fs)
    refine ⟨⟨rest, by rw [hlog, hlog0]; rfl⟩, ?_, by rw [hcfg], ?_⟩
    · intro f b hmem
      rw [hlog] at hmem
      rcases List.mem_append.mp hmem with h | h
      · exact absurd h (hnw0 f b)
      · rcases List.mem_cons.mp h with h | h
        · cases h
        · exact hwf f b h
    · intro hM hdiff
      obtain ⟨rest2, -, hfs⟩ := generateExec_step env (Config.normalize env cfg).2
        (afterUnlink env (Config.normalize env cfg).2 fs)
      have h0 : (afterUnlink env (Config.normalize env cfg).2 fs).fs
          (Config.normalize env cfg).2.Model.Filename = none := by
        rw [afterUnlink_fs]
        simp [hM]
      rcases hfs with h | ⟨c, h, -⟩
      · rw [h, h0]
      · rw [h]
        simp [FS.write, hdiff, h0]
  · intro hne buf hbuf hdir
    rw [hfull hne]
    have hev := write_event env (Config.normalize env cfg).2.Model.Filename buf
      ((afterUnlink env (Config.normalize env cfg).2 fs).emit (Event.run "models.gotpl")) hdir
    rcases generateModels_cases env (Config.normalize env cfg).2 mb
      (afterUnlink env (Config.normalize env cfg).2 fs) hnn with
      ⟨e, he, hr⟩ | ⟨buf1, e, w1, hb1, hw, hr⟩ | ⟨buf1, w1, l, hb1, hw, hr⟩
    · rw [hbuf] at he
      cases he
    · rw [hbuf] at hb1
      cases hb1
      rw [hw] at hev
      rw [hr]
      refine ⟨hev, ?_⟩
      intro hwr _
      have herr := write_err env (Config.normalize env cfg).2.Model.Filename buf
        ((afterUnlink env (Config.normalize env cfg).2 fs).emit (Event.run "models.gotpl"))
      rw [hw, hdir, hwr] at herr
      cases herr
    · rw [hbuf] at hb1
      cases hb1
      rw [hw] at hev
      rw [hr]
      obtain ⟨rest, hlog, hfs⟩ := generateExec_step env
        { (Config.normalize env cfg).2 with Models := some l } w1
      refine ⟨by rw [hlog]; exact List.mem_append_left _ hev, ?_⟩
      intro hwr hdiff
      have hfsw := write_fs env (Config.normalize env cfg).2.Model.Filename buf
        ((afterUnlink env (Config.normalize env cfg).2 fs).emit (Event.run "models.gotpl"))
      rw [hw] at hfsw
      simp only [if_true] at hfsw
      rcases hfs with h | ⟨c, h, -⟩
      · rw [h, hfsw]
        simp [FS.write]
      · rw [h, hfsw]
        simp [FS.write, hdiff]
  · intro hne e he
    rw [hfull hne]
    rcases generateModels_cases env (Config.normalize env cfg).2 mb
      (afterUnlink env (Config.normalize env cfg).2 fs) hnn with
      ⟨e1, he1, hr⟩ | ⟨buf1, e1, w1, hb1, hw, hr⟩ | ⟨buf1, w1, l, hb1, hw, hr⟩
    · rw [he] at he1
      cases he1
      rw [hr]
      refine ⟨rfl, ?_, ?_⟩
      · intro f b hmem
        rcases List.mem_append.mp hmem with h | h
        · exact hnw0 f b h
        · simp at h
      · intro hmem
        rcases List.mem_append.mp hmem with h | h
        · exact hnb0 h
        · simp at h
    · rw [he] at hb1
      cases hb1
    · rw [he] at hb1
      cases hb1

/-- C9, amended, at the sample configuration: the plan holds the model `Todo`, the models
template is rendered, and the formatted bytes are the file at the Model destination. -/
theorem generate_model_artifact_witness :
    (Config.normalize sampleEnv sampleConfig).1 = .ok ∧
    sampleEnv.models (Config.normalize sampleEnv sampleConfig).2
      = .ok ⟨"", [⟨"Todo", "Todo", []⟩], []⟩ ∧
    Event.run "models.gotpl" ∈ (Generate sampleEnv sampleConfig staleFS).log ∧
    Event.writeFile "graph/model/models.go" [0, 1, 2]
      ∈ (Generate sampleEnv sampleConfig staleFS).log ∧
    (Generate sampleEnv sampleConfig staleFS).fs "graph/model/models.go" = some [0, 1, 2] :=
  ⟨by decide, rfl,
    (generate_model_artifact sampleEnv sampleConfig staleFS ⟨"", [⟨"Todo", "Todo", []⟩], []⟩
      (by decide) rfl).1.mpr (by decide),
    ((generate_model_artifact sampleEnv sampleConfig staleFS ⟨"", [⟨"Todo", "Todo", []⟩], []⟩
      (by decide) rfl).2.2.1 (by decide) [1, 2] rfl rfl).1,
    ((generate_model_artifact sampleEnv sampleConfig staleFS ⟨"", [⟨"Todo", "Todo", []⟩], []⟩
      (by decide) rfl).2.2.1 (by decide) [1, 2] rfl rfl).2 rfl (by decide)⟩

/-! ## C4: idempotence -/

theorem pointwise_id : Pointwise (fun fs => fs) := fun _ => Or.inl (fun _ => rfl)

theorem pointwise_comp (G H : FS → FS) (hG : Pointwise G) (hH : Pointwise H) :
    Pointwise (fun fs => H (G fs)) := by
  intro q
  rcases hH q with h | ⟨c, h⟩
  · rcases hG q with g | ⟨c, g⟩
    · exact Or.inl (fun fs => (h (G fs)).trans (g fs))
    · exact Or.inr ⟨c, fun fs => (h (G fs)).trans (g fs)⟩
  · exact Or.inr ⟨c, fun fs => h (G fs)⟩

theorem pointwise_write (p : String) (b : Bytes) : Pointwise (fun fs => fs.write p b) := by
  intro q
  by_cases h : q = p
  · exact Or.inr ⟨some b, fun fs => by simp [FS.write, h]⟩
  · exact Or.inl (fun fs => by simp [FS.write, h])

theorem pointwise_remove (p : String) : Pointwise (fun fs => fs.remove p) := by
  intro q
  by_cases h : q = p
  · exact Or.inr ⟨none, fun fs => by simp [FS.remove, h]⟩
  · exact Or.inl (fun fs => by simp [FS.remove, h])

theorem pointwise_idem (G : FS → FS) (hG : Pointwise G) (fs : FS) : G (G fs) = G fs := by
  funext q
  rcases hG q with h | ⟨c, h⟩
  · rw [h]
  · rw [h, h]

theorem write_pointwise {σ : Type} (env : Env σ) (f : String) (b : Bytes) :
    ∃ G, Pointwise G ∧ ∀ w, (write env f b w).2.fs = G w.fs := by
  have hindep : ∀ w, (write env f b w).1 = (write env f b ⟨fun _ => none, []⟩).1 := by
    intro w
    rw [write_err, write_err]
  by_cases h : (write env f b ⟨fun _ => none, []⟩).1 = none
  · refine ⟨fun fs => fs.write f (gofmt env f b).1, pointwise_write _ _, ?_⟩
    intro w
    rw [write_fs, if_pos (by rw [hindep w]; exact h)]
  · refine ⟨fun fs => fs, pointwise_id, ?_⟩
    intro w
    rw [write_fs, if_neg (by rw [hindep w]; exact h)]

theorem generateExec_fs_eq {σ : Type} (env : Env σ) (cfg : Config σ) (w : World) :
    (generateExec env cfg w).fs =
      match env.bind cfg with
      | .error _ => w.fs
      | .ok build =>
        match env.run "generated.gotpl"
          (.exec ⟨cfg.Exec.Package, cfg.SchemaStr, build.Objects⟩) with
        | .error _ => w.fs
        | .ok buf =>
          (write env cfg.Exec.Filename buf
            ((w.emit Event.bind).emit (Event.run "generated.gotpl"))).2.fs := by
  unfold generateExec
  cases hb : env.bind cfg with
  | error e => rfl
  | ok build =>
    simp only []
    cases hr : env.run "generated.gotpl"
        (.exec ⟨cfg.Exec.Package, cfg.SchemaStr, build.Objects⟩) with
    | error e => rfl
    | ok buf =>
      simp only []
      rcases hw : write env cfg.Exec.Filename buf
        ((w.emit Event.bind).emit (Event.run "generated.gotpl")) with ⟨we, w1⟩
      cases we with
      | some e => rfl
      | none =>
        simp only []
        cases env.validate cfg <;> rfl

theorem generateExec_pointwise {σ : Type} (env : Env σ) (cfg : Config σ) :
    ∃ G, Pointwise G ∧ ∀ w, (generateExec env cfg w).fs = G w.fs := by
  cases hb : env.bind cfg with
  | error e =>
    exact ⟨fun fs => fs, pointwise_id, fun w => by rw [generateExec_fs_eq, hb]⟩
  | ok build =>
    cases hr : env.run "generated.gotpl"
        (.exec ⟨cfg.Exec.Package, cfg.SchemaStr, build.Objects⟩) with
    | error e =>
      exact ⟨fun fs => fs, pointwise_id, fun w => by rw [generateExec_fs_eq, hb]; simp only [hr]⟩
    | ok buf =>
      obtain ⟨G, hG, hfs⟩ := write_pointwise env cfg.Exec.Filename buf
      refine ⟨G, hG, fun w => ?_⟩
      rw [generateExec_fs_eq, hb]
      simp only [hr]
      rw [hfs]
      rfl

theorem generateModels_pointwise {σ : Type} (env : Env σ) (cfg : Config σ) (mb : ModelBuild) :
    ∃ G, Pointwise G ∧ ∀ w, (generateModels env cfg mb w).fs = G w.fs := by
  cases hr : env.run "models.gotpl" (.models ⟨cfg.Model.Package, mb.Models, mb.Enums⟩) with
  | error e =>
    refine ⟨fun fs => fs, pointwise_id, fun w => ?_⟩
    unfold generateModels
    simp only [hr]
    rfl
  | ok buf =>
    obtain ⟨G, hG, hfs⟩ := write_pointwise env cfg.Model.Filename buf
    have hindep : ∀ w : World, (write env cfg.Model.Filename buf w).1
        = (write env cfg.Model.Filename buf ⟨fun _ => none, []⟩).1 := by
      intro w
      rw [write_err, write_err]
    have hstop : ∀ w : World, (write env cfg.Model.Filename buf
          (w.emit (Event.run "models.gotpl"))).2.fs = G w.fs := by
      intro w
      rw [hfs]
      rfl
    cases hwe : (write env cfg.Model.Filename buf ⟨fun _ => none, []⟩).1 with
    | some e =>
      refine ⟨G, hG, fun w => ?_⟩
      have h1 := hindep (w.emit (Event.run "models.gotpl"))
      rw [hwe] at h1
      rw [← hstop w]
      unfold generateModels
      simp only [hr]
      rcases hw : write env cfg.Model.Filename buf (w.emit (Event.run "models.gotpl"))
        with ⟨we, w1⟩
      rw [hw] at h1
      simp only [] at h1
      subst h1
      rfl
    | none =>
      cases hbm : bindModels (env.ImportPath cfg.Model) mb.Models cfg.Models with
      | none =>
        refine ⟨G, hG, fun w => ?_⟩
        have h1 := hindep (w.emit (Event.run "models.gotpl"))
        rw [hwe] at h1
        rw [← hstop w]
        unfold generateModels
        simp only [hr]
        rcases hw : write env cfg.Model.Filename buf (w.emit (Event.run "models.gotpl"))
          with ⟨we, w1⟩
        rw [hw] at h1
        simp only [] at h1
        subst h1
        simp only [hbm]
      | some m =>
        cases hbe : bindEnums (env.ImportPath cfg.Model) mb.Enums m with
        | none =>
          refine ⟨G, hG, fun w => ?_⟩
          have h1 := hindep (w.emit (Event.run "models.gotpl"))
          rw [hwe] at h1
          rw [← hstop w]
          unfold generateModels
          simp only [hr]
          rcases hw : write env cfg.Model.Filename buf (w.emit (Event.run "models.gotpl"))
            with ⟨we, w1⟩
          rw [hw] at h1
          simp only [] at h1
          subst h1
          simp only [hbm, hbe]
        | some m2 =>
          obtain ⟨H, hH, hfs2⟩ := generateExec_pointwise env { cfg with Models := m2 }
          refine ⟨fun fs => H (G fs), pointwise_comp G H hG hH, fun w => ?_⟩
          have h1 := hindep (w.emit (Event.run "models.gotpl"))
          rw [hwe] at h1
          simp only []
          rw [← hstop w, ← hfs2]
          unfold generateModels
          simp only [hr]
          rcases hw : write env cfg.Model.Filename buf (w.emit (Event.run "models.gotpl"))
            with ⟨we, w1⟩
          rw [hw] at h1
          simp only [] at h1
          subst h1
          simp only [hbm, hbe]

theorem afterUnlink_pointwise {σ : Type} (env : Env σ) (cfg : Config σ) :
    Pointwise (fun fs => (afterUnlink env cfg fs).fs) := by
  intro q
  by_cases h : (q = cfg.Exec.Filename ∧ env.unlinkFails cfg.Exec.Filename = false) ∨
      (q = cfg.Model.Filename ∧ env.unlinkFails cfg.Model.Filename = false)
  · exact Or.inr ⟨none, fun fs => (afterUnlink_fs env cfg fs q).trans (if_pos h)⟩
  · exact Or.inl (fun fs => (afterUnlink_fs env cfg fs q).trans (if_neg h))

/-- The files that `Generate` leaves are a pointwise change of the files it starts from. -/
theorem Generate_pointwise {σ : Type} (env : Env σ) (cfg : Config σ) :
    ∃ G, Pointwise G ∧ ∀ fs, (Generate env cfg fs).fs = G fs := by
  by_cases hok : (Config.normalize env cfg).1 = .ok
  · have hU := afterUnlink_pointwise env (Config.normalize env cfg).2
    cases hm : env.models (Config.normalize env cfg).2 with
    | error e =>
      refine ⟨_, hU, fun fs => ?_⟩
      rw [Generate_of_normalize_ok env cfg fs hok, hm]
    | ok mb =>
      by_cases hne : mb.Models.length > 0 ∨ mb.Enums.length > 0
      · obtain ⟨H, hH, hfs⟩ := generateModels_pointwise env (Config.normalize env cfg).2 mb
        refine ⟨_, pointwise_comp _ H hU hH, fun fs => ?_⟩
        rw [Generate_of_normalize_ok env cfg fs hok, hm]
        simp only []
        rw [if_pos hne, hfs]
      · obtain ⟨H, hH, hfs⟩ := generateExec_pointwise env (Config.normalize env cfg).2
        refine ⟨_, pointwise_comp _ H hU hH, fun fs => ?_⟩
        rw [Generate_of_normalize_ok env cfg fs hok, hm]
        simp only []
        rw [if_neg hne, hfs]
  · exact ⟨fun fs => fs, pointwise_id, fun fs => by
      rw [Generate_of_normalize_fails env cfg fs hok]⟩

theorem generateExec_ok_file {σ : Type} (env : Env σ) (cfg : Config σ) (w : World)
    (h : (generateExec env cfg w).out = .ok) :
    ∃ c, (generateExec env cfg w).fs cfg.Exec.Filename = some c := by
  obtain ⟨-, rest, -, -, -, hc⟩ := generateExec_cases env cfg w
  rcases hc with ⟨_, h1, -⟩ | ⟨_, h1, -⟩ | ⟨_, h1, -⟩ | ⟨_, h1, -⟩ | ⟨_, _, h1, -⟩ | ⟨c, -, h1, -⟩
  · rw [h1] at h; cases h
  · rw [h1] at h; cases h
  · rw [h1] at h; cases h
  · rw [h1] at h; cases h
  · rw [h1] at h; cases h
  · exact ⟨c, by rw [h1]; simp [FS.write]⟩

theorem Generate_ok_file {σ : Type} (env : Env σ) (cfg : Config σ) (fs : FS)
    (h : (Generate env cfg fs).out = .ok) :
    (Config.normalize env cfg).1 = .ok ∧
    ∃ c, (Generate env cfg fs).fs (Config.normalize env cfg).2.Exec.Filename = some c := by
  have hok : (Config.normalize env cfg).1 = .ok := by
    by_contra hne
    rw [Generate_of_normalize_fails env cfg fs hne] at h
    exact hne h
  refine ⟨hok, ?_⟩
  obtain ⟨l', hm, -⟩ := normalize_ok_models env cfg hok
  have hnn : (Config.normalize env cfg).2.Models ≠ none := by rw [hm]; simp
  rw [Generate_of_normalize_ok env cfg fs hok] at h ⊢
  cases hmod : env.models (Config.normalize env cfg).2 with
  | error e =>
    rw [hmod] at h
    cases h
  | ok mb =>
    rw [hmod] at h
    simp only [] at h ⊢
    by_cases hne : mb.Models.length > 0 ∨ mb.Enums.length > 0
    · rw [if_pos hne] at h ⊢
      rcases generateModels_cases env (Config.normalize env cfg).2 mb
        (afterUnlink env (Config.normalize env cfg).2 fs) hnn with
        ⟨e, -, hr⟩ | ⟨buf, e, w1, -, hw, hr⟩ | ⟨buf, w1, l, -, hw, hr⟩
      · rw [hr] at h; cases h
      · rw [hr] at h; cases h
      · rw [hr] at h ⊢
        exact generateExec_ok_file env _ w1 h
    · rw [if_neg hne] at h ⊢
      exact generateExec_ok_file env _ _ h

/-- A configuration with a nil TypeMap is not changed for the caller by a run. -/
theorem configAfter_nil {σ : Type} (cfg : Config σ) (r : Run σ) (h : cfg.Models = none) :
    configAfter cfg r = cfg := by
  unfold configAfter
  rw [if_pos h, ← h]

/-- C4, the claim as stated, fails: the sample configuration has a TypeMap that is not nil,
and the first run of `Generate` on it succeeds and writes the Model file. The same
configuration passed a second time has the same schema text and the same targets, but its
TypeMap is the map the first run has written into, which now binds `Todo`; the second run
succeeds with an empty model plan, and having unlinked the Model file it leaves none. -/
theorem generate_twice_on_shared_map :
    (Generate sampleEnv sampleConfig staleFS).out = .ok ∧
    (Generate sampleEnv sampleConfig staleFS).fs "graph/model/models.go" = some [0, 1, 2] ∧
    (configAfter sampleConfig (Generate sampleEnv sampleConfig staleFS)).SchemaStr
      = sampleConfig.SchemaStr ∧
    (configAfter sampleConfig (Generate sampleEnv sampleConfig staleFS)).Exec
      = sampleConfig.Exec ∧
    (configAfter sampleConfig (Generate sampleEnv sampleConfig staleFS)).Model
      = sampleConfig.Model ∧
    TypeMap.Exists sampleConfig.Models "Todo" = false ∧
    TypeMap.Exists
      (configAfter sampleConfig (Generate sampleEnv sampleConfig staleFS)).Models "Todo"
        = true ∧
    (Generate sampleEnv (configAfter sampleConfig (Generate sampleEnv sampleConfig staleFS))
      (Generate sampleEnv sampleConfig staleFS).fs).out = .ok ∧
    (Generate sampleEnv (configAfter sampleConfig (Generate sampleEnv sampleConfig staleFS))
      (Generate sampleEnv sampleConfig staleFS).fs).fs "graph/model/models.go" = none := by
  decide

/-- C4, amended. Idempotence of `Generate`: with the schema parser, the plan builders, the
template engine and the formatter being functions of their arguments (and each file-system
call succeeding or failing by its path), for every configuration and every starting file
system on which `Generate` succeeds, a second run on the files left by the first, with a
configuration of the same contents as the first run was given (same schema text, same two
targets, and the TypeMap with the entries it had before the first run), also succeeds, and
it leaves both destination files with the same contents: indeed the whole file system is as
the first run left it, and the Exec destination holds a file. When the TypeMap is nil, the
configuration that the caller holds after the first run is such a configuration, so passing
the same value again is idempotent; a TypeMap that is not nil is shared with the first run,
which has written into it, and is outside this statement. -/
theorem generate_idempotent {σ : Type} (env : Env σ) (cfg : Config σ) (fs : FS)
    (hok : (Generate env cfg fs).out = .ok) :
    (Generate env cfg (Generate env cfg fs).fs).out = .ok ∧
    (Generate env cfg (Generate env cfg fs).fs).fs (Config.normalize env cfg).2.Exec.Filename
      = (Generate env cfg fs).fs (Config.normalize env cfg).2.Exec.Filename ∧
    (Generate env cfg (Generate env cfg fs).fs).fs (Config.normalize env cfg).2.Model.Filename
      = (Generate env cfg fs).fs (Config.normalize env cfg).2.Model.Filename ∧
    (Generate env cfg (Generate env cfg fs).fs).fs = (Generate env cfg fs).fs ∧
    (∃ b, (Generate env cfg fs).fs (Config.normalize env cfg).2.Exec.Filename = some b) ∧
    (cfg.Models = none →
      (Generate env (configAfter cfg (Generate env cfg fs)) (Generate env cfg fs).fs).out = .ok ∧
      (Generate env (configAfter cfg (Generate env cfg fs)) (Generate env cfg fs).fs).fs
        = (Generate env cfg fs).fs) := by
  obtain ⟨G, hG, hfs⟩ := Generate_pointwise env cfg
  have hsame : (Generate env cfg (Generate env cfg fs).fs).fs = (Generate env cfg fs).fs := by
    rw [hfs, hfs, pointwise_idem G hG]
  have hout : (Generate env cfg (Generate env cfg fs).fs).out = .ok := by
    rw [Generate_out_fs env cfg fs]
    exact hok
  refine ⟨hout, by rw [hsame], by rw [hsame], hsame, (Generate_ok_file env cfg fs hok).2, ?_⟩
  intro hnil
  rw [configAfter_nil cfg _ hnil]
  exact ⟨hout, hsame⟩

/-- C4, amended, at the sample configuration with a nil TypeMap, started on the files of an
earlier run. -/
theorem generate_idempotent_witness :
    (Generate sampleEnv nilMapConfig staleFS).out = .ok ∧
    nilMapConfig.Models = none ∧
    (Generate sampleEnv nilMapConfig (Generate sampleEnv nilMapConfig staleFS).fs).out = .ok ∧
    (Generate sampleEnv nilMapConfig (Generate sampleEnv nilMapConfig staleFS).fs).fs
      = (Generate sampleEnv nilMapConfig staleFS).fs ∧
    (∃ b, (Generate sampleEnv nilMapConfig staleFS).fs
        (Config.normalize sampleEnv nilMapConfig).2.Exec.Filename = some b) ∧
    (Generate sampleEnv (configAfter nilMapConfig (Generate sampleEnv nilMapConfig staleFS))
      (Generate sampleEnv nilMapConfig staleFS).fs).out = .ok ∧
    (Generate sampleEnv (configAfter nilMapConfig (Generate sampleEnv nilMapConfig staleFS))
      (Generate sampleEnv nilMapConfig staleFS).fs).fs
        = (Generate sampleEnv nilMapConfig staleFS).fs :=
  ⟨by decide, rfl,
    (generate_idempotent sampleEnv nilMapConfig staleFS (by decide)).1,
    (generate_idempotent sampleEnv nilMapConfig staleFS (by decide)).2.2.2.1,
    (generate_idempotent sampleEnv nilMapConfig staleFS (by decide)).2.2.2.2.1,
    ((generate_idempotent sampleEnv nilMapConfig staleFS (by decide)).2.2.2.2.2 rfl).1,
    ((generate_idempotent sampleEnv nilMapConfig staleFS (by decide)).2.2.2.2.2 rfl).2⟩

/-! ## C10: import paths -/

theorem slice_zero (s : Bytes) (n : Nat) (h : n ≤ s.length) :
    slice s 0 n = some (s.take n) := by
  unfold slice
  rw [if_pos ⟨Nat.zero_le n, h⟩]
  simp

theorem slice_to_end (s : Bytes) (n : Nat) (h : n ≤ s.length) :
    slice s n s.length = some (s.drop n) := by
  unfold slice
  rw [if_pos ⟨h, Nat.le_refl _⟩]
  have : s.take s.length = s := List.take_of_length_le (Nat.le_refl _)
  rw [this]

/-- The loop of `importPath` never slices out of range, and it removes the beginning of
the first entry whose beginning is a case-insensitive beginning of the path. -/
theorem importPathLoop_eq (EqualFold : Bytes → Bytes → Bool) (full : Bytes) :
    ∀ entries : List String, importPathLoop EqualFold entries full =
      some (match entries.find? (fun g => foldBeginsWith EqualFold full
              (goBytes (filepath.Join g "src" ++ String.singleton filepath.Separator))) with
            | some g => full.drop
                (goBytes (filepath.Join g "src" ++ String.singleton filepath.Separator)).length
            | none => full) := by
  intro entries
  induction entries with
  | nil => rfl
  | cons g rest ih =>
    unfold importPathLoop
    simp only []
    by_cases hlen :
        (goBytes (filepath.Join g "src" ++ String.singleton filepath.Separator)).length
          > full.length
    · rw [if_pos hlen, ih]
      have hf : foldBeginsWith EqualFold full
          (goBytes (filepath.Join g "src" ++ String.singleton filepath.Separator)) = false := by
        unfold foldBeginsWith
        rw [decide_eq_false (by omega)]
        rfl
      simp only [List.find?, hf]
    · rw [if_neg hlen]
      have hle :
          (goBytes (filepath.Join g "src" ++ String.singleton filepath.Separator)).length
            ≤ full.length := by omega
      rw [slice_zero full _ hle]
      simp only []
      by_cases heq : EqualFold
          (goBytes (filepath.Join g "src" ++ String.singleton filepath.Separator))
          (full.take
            (goBytes (filepath.Join g "src" ++ String.singleton filepath.Separator)).length)
            = true
      · rw [if_pos heq, slice_to_end full _ hle]
        have hf : foldBeginsWith EqualFold full
            (goBytes (filepath.Join g "src" ++ String.singleton filepath.Separator)) = true := by
          unfold foldBeginsWith
          rw [decide_eq_true hle, heq]
          rfl
        simp only [List.find?, hf]
      · rw [if_neg heq, ih]
        have hf : foldBeginsWith EqualFold full
            (goBytes (filepath.Join g "src" ++ String.singleton filepath.Separator)) = false := by
          unfold foldBeginsWith
          rw [decide_eq_true hle]
          simpa using heq
        simp only [List.find?, hf]

/-- Lengths are byte counts: the GOPATH entry made of `/` and the Kelvin sign U+212A, three
bytes in UTF-8 and equal to `k` under case folding, gives a beginning of nine bytes, longer than the eight bytes of `/k/src/a`, so the
entry is skipped whatever the case folding says, and the path is returned unchanged. -/
theorem importPath_counts_bytes (EqualFold : Bytes → Bytes → Bool) :
    importPath EqualFold "/\u212A" "/k/src/x" "a" = some (goBytes "/k/src/a") := by
  rfl

/-- C10, the claim as stated, fails: with the GOPATH entry `/home/u/go/`, which ends in a
separator, the concatenation `g + "/src/"` is `/home/u/go//src/` and is no beginning of the
package path `/home/u/go/src/app/graph/model`, so the claim leaves the path unchanged; the
code compares with `filepath.Join(g, "src") + "/"`, which is `/home/u/go/src/`, and returns
`app/graph/model`. -/
theorem importPath_trailing_separator :
    importPath asciiEqualFold "/home/u/go/" "/home/u/go/src/app/graph/x" "model"
      = some (goBytes "app/graph/model") ∧
    importPathClaimed asciiEqualFold "/home/u/go/" "/home/u/go/src/app/graph/x" "model"
      = goBytes "/home/u/go/src/app/graph/model" ∧
    importPath asciiEqualFold "/home/u/go/" "/home/u/go/src/app/graph/x" "model"
      ≠ some (importPathClaimed asciiEqualFold "/home/u/go/" "/home/u/go/src/app/graph/x"
          "model") := by
  decide

/-- C10, amended. `importPath` is total and strips at most one GOPATH beginning: for every
`dir`, `pkgName`, GOPATH list and case-folding comparison, the slice
`fullPkgName[0:len(gopath)]` is never out of range, because entries with more bytes than the
full package path are skipped. If some GOPATH entry `g` is such that `filepath.Join(g, "src")`
followed by the separator (the cleaned join, not the plain concatenation `g + "/src/"`) is a
case-insensitive beginning of `join(dirname(dir), pkgName)`, that is, equal under
`strings.EqualFold` to the first bytes of that path, as many as the beginning has, the
result is that path without the beginning of the first such entry, and no further entry is
applied; otherwise the result is the full path unchanged; in both cases separators are
converted to forward slashes. All lengths and cuts are in bytes. -/
theorem importPath_spec (EqualFold : Bytes → Bytes → Bool) (GOPATH dir pkgName : String) :
    importPath EqualFold GOPATH dir pkgName
      = some (importPathJoined EqualFold GOPATH dir pkgName) ∧
    (∀ g, (goBytes (filepath.Join g "src" ++ String.singleton filepath.Separator)).length
        ≤ (goBytes (filepath.Join (filepath.Dir dir) pkgName)).length →
      (slice (goBytes (filepath.Join (filepath.Dir dir) pkgName)) 0
        (goBytes (filepath.Join g "src" ++ String.singleton filepath.Separator)).length).isSome
          = true ∧
      (slice (goBytes (filepath.Join (filepath.Dir dir) pkgName))
        (goBytes (filepath.Join g "src" ++ String.singleton filepath.Separator)).length
        (goBytes (filepath.Join (filepath.Dir dir) pkgName)).length).isSome = true) := by
  constructor
  · unfold importPath importPathJoined importPathBy
    rw [importPathLoop_eq]
    rfl
  · intro g hle
    rw [slice_zero _ _ hle, slice_to_end _ _ hle]
    exact ⟨rfl, rfl⟩

/-- C10, amended, at a GOPATH of two entries: the first entry does not match, the second
matches up to the case of letters, and its beginning is removed. -/
theorem importPath_spec_witness :
    importPath asciiEqualFold "/home/u/go:/opt/go" "/opt/GO/src/app/graph/x" "model"
      = some (importPathJoined asciiEqualFold "/home/u/go:/opt/go" "/opt/GO/src/app/graph/x"
          "model") ∧
    importPathJoined asciiEqualFold "/home/u/go:/opt/go" "/opt/GO/src/app/graph/x" "model"
      = goBytes "app/graph/model" ∧
    (slice (goBytes (filepath.Join (filepath.Dir "/opt/GO/src/app/graph/x") "model")) 0
        (goBytes (filepath.Join "/opt/go" "src" ++ String.singleton filepath.Separator)).length
      ).isSome = true :=
  ⟨(importPath_spec asciiEqualFold "/home/u/go:/opt/go" "/opt/GO/src/app/graph/x" "model").1,
    by decide,
    ((importPath_spec asciiEqualFold "/home/u/go:/opt/go" "/opt/GO/src/app/graph/x" "model").2
      "/opt/go" (by decide)).1⟩

end Codegen
